import Mathlib

/-!
Verification of the I/O buffer subsystem in `src/kernel/mm/iobuf.c`.

This file gives a shallow embedding of the data model and the operations of
the kernel's I/O buffer engine and proves the specification claims about
them.  Machine integers (`UINTN`, `PHYSICAL_ADDRESS`, both 64 bits wide on
the modelled platform) are represented as `Nat` with explicit reduction
modulo `2 ^ 64` at every operation where the C code can wrap.  A C `ASSERT`
is modelled as a guard: an operation whose assert fires returns `none`.
Collaborators that are out of scope for the subsystem (the physical page
allocator, the pool allocator, the virtual-address allocator, the page
mapper and the page cache) are parameters of the embedded operations.
-/

namespace IoBuf

/-- Modulus of `UINTN` / `PHYSICAL_ADDRESS` arithmetic: 64-bit platform. -/
def U : Nat := 2 ^ 64

/-- Wrapping addition at `UINTN` width. -/
def wadd (a b : Nat) : Nat := (a + b) % U

/-- Wrapping subtraction at `UINTN` width (two's complement behaviour). -/
def wsub (a b : Nat) : Nat := (a + (U - b % U)) % U

/-- The `ALIGN_RANGE_DOWN(Range, Alignment)` macro for a power-of-two
alignment: clear the low bits, i.e. subtract the remainder.  For alignment
zero the C macro masks with `~(0 - 1) = 0` and yields `0`, which matches
`x - x % 0 = 0` here. -/
def alignRangeDown (x a : Nat) : Nat := x - x % a

/-- The `ALIGN_RANGE_UP(Range, Alignment)` macro for a power-of-two
alignment, including the `UINTN` wrap of the intermediate `Range +
Alignment - 1`. -/
def alignRangeUp (x a : Nat) : Nat := alignRangeDown ((x + a - 1) % U) a

/-- The `IS_ALIGNED(Range, Alignment)` macro. -/
def isAligned (x a : Nat) : Bool := alignRangeDown x a == x

/-- Modelled from the spec: `INVALID_PHYSICAL_ADDRESS` comes from a kernel
header that is not part of the sources here.  Its value is pinned to `0` by
the code itself: zero-initialized fragment slots are asserted to hold
`INVALID_PHYSICAL_ADDRESS` (`MmIoBufferAppendPage`, `MmpExtendIoBuffer`). -/
def INVALID_PHYSICAL_ADDRESS : Nat := 0

/-- The status codes returned by the embedded operations (§7 of the spec). -/
inductive KSTATUS where
  | success
  | invalidParameter
  | insufficientResources
  | accessViolation
  | bufferTooSmall
  | noMemory
  deriving DecidableEq, Repr

/-- The `IO_BUFFER_FLAG_*` bag, one field per flag bit defined in
`iobuf.c` lines 40-106 (the `FRAGMENT` bit 0x20 is defined but never set or
tested in the module and is omitted). -/
structure IoBufferFlags where
  memoryOwned : Bool := false
  structureNotOwned : Bool := false
  memoryLocked : Bool := false
  nonPaged : Bool := false
  pageCacheBacked : Bool := false
  userMode : Bool := false
  mapped : Bool := false
  virtuallyContiguous : Bool := false
  unmapOnFree : Bool := false
  extendable : Bool := false
  deriving DecidableEq, Repr

/-- One `IO_BUFFER_FRAGMENT`: a virtual address (`0` models the C `NULL`),
a physical address and a byte size.  The default values are the all-zero
state `RtlZeroMemory` leaves in an unused table slot. -/
structure IoBufferFragment where
  virtualAddress : Nat := 0
  physicalAddress : Nat := 0
  size : Nat := 0
  deriving DecidableEq, Repr

/-- The `IO_BUFFER` descriptor.  `fragments` is the whole fragment table
(`maxFragmentCount` slots); `pageCacheEntries` is `none` when the
`PageCacheEntries` pointer is `NULL` and otherwise the table of `pageCount`
optional page-cache-entry references (entries are opaque non-zero ids). -/
structure IoBuffer where
  flags : IoBufferFlags
  totalSize : Nat
  currentOffset : Nat
  fragmentCount : Nat
  maxFragmentCount : Nat
  pageCount : Nat
  fragments : List IoBufferFragment
  pageCacheEntries : Option (List (Option Nat))
  deriving DecidableEq, Repr

/-- `MmGetIoBufferSize` (iobuf.c:2630-2655): `TotalSize - CurrentOffset`
in `UINTN` arithmetic. -/
def MmGetIoBufferSize (b : IoBuffer) : Nat :=
  wsub b.totalSize b.currentOffset

/-- `MmGetIoBufferCurrentOffset` (iobuf.c:2657-2683). -/
def MmGetIoBufferCurrentOffset (b : IoBuffer) : Nat :=
  b.currentOffset

/-- `MmIoBufferIncrementOffset` (iobuf.c:2685-2718): add to the cursor,
then `ASSERT(CurrentOffset <= TotalSize)`. -/
def MmIoBufferIncrementOffset (b : IoBuffer) (offsetIncrement : Nat) :
    Option IoBuffer :=
  let c := wadd b.currentOffset offsetIncrement
  if c ≤ b.totalSize then some { b with currentOffset := c } else none

/-- `MmIoBufferDecrementOffset` (iobuf.c:2720-2753): subtract from the
cursor in `UINTN` arithmetic, then `ASSERT(CurrentOffset <= TotalSize)`. -/
def MmIoBufferDecrementOffset (b : IoBuffer) (offsetDecrement : Nat) :
    Option IoBuffer :=
  let c := wsub b.currentOffset offsetDecrement
  if c ≤ b.totalSize then some { b with currentOffset := c } else none

/-- A cursor operation: the public `advance` / `rewind` pair. -/
inductive CursorOp where
  | advance (n : Nat)
  | rewind (n : Nat)
  deriving DecidableEq, Repr

/-- One cursor operation applied to a buffer. -/
def cursorStep (b : IoBuffer) : CursorOp → Option IoBuffer
  | .advance n => MmIoBufferIncrementOffset b n
  | .rewind n => MmIoBufferDecrementOffset b n

/-- A sequence of cursor operations applied one after the other; the
sequence completes only when every single assert holds. -/
def runCursorOps (b : IoBuffer) (ops : List CursorOp) : Option IoBuffer :=
  ops.foldlM cursorStep b

theorem wsub_eq_sub {a b : Nat} (hb : b ≤ a) (ha : a < U) :
    wsub a b = a - b := by
  unfold wsub
  have hbU : b % U = b := Nat.mod_eq_of_lt (lt_of_le_of_lt hb ha)
  rw [hbU]
  have h1 : a + (U - b) = U + (a - b) := by omega
  rw [h1, Nat.add_mod_left]
  exact Nat.mod_eq_of_lt (by omega)

theorem cursorStep_invariant {b b' : IoBuffer} {op : CursorOp}
    (h : cursorStep b op = some b') :
    b'.currentOffset ≤ b'.totalSize ∧ b'.totalSize = b.totalSize := by
  cases op with
  | advance n =>
    simp only [cursorStep, MmIoBufferIncrementOffset] at h
    by_cases hc : wadd b.currentOffset n ≤ b.totalSize
    · simp [hc] at h
      subst h
      exact ⟨hc, rfl⟩
    · simp [hc] at h
  | rewind n =>
    simp only [cursorStep, MmIoBufferDecrementOffset] at h
    by_cases hc : wsub b.currentOffset n ≤ b.totalSize
    · simp [hc] at h
      subst h
      exact ⟨hc, rfl⟩
    · simp [hc] at h

theorem runCursorOps_invariant (ops : List CursorOp) (b b' : IoBuffer)
    (hstart : b.currentOffset ≤ b.totalSize)
    (h : runCursorOps b ops = some b') :
    b'.currentOffset ≤ b'.totalSize ∧ b'.totalSize = b.totalSize := by
  induction ops generalizing b with
  | nil =>
    simp only [runCursorOps, List.foldlM_nil, Option.pure_def, Option.some.injEq] at h
    subst h
    exact ⟨hstart, rfl⟩
  | cons op rest ih =>
    simp only [runCursorOps, List.foldlM_cons] at h
    cases hstep : cursorStep b op with
    | none => rw [hstep] at h; simp at h
    | some b1 =>
      rw [hstep] at h
      simp only [Option.bind_eq_bind, Option.some_bind] at h
      obtain ⟨h1, h2⟩ := cursorStep_invariant hstep
      obtain ⟨h3, h4⟩ := ih b1 h1 h
      exact ⟨h3, h4.trans h2⟩

/-- C4: after any sequence of `advance` (`MmIoBufferIncrementOffset`) and
`rewind` (`MmIoBufferDecrementOffset`) calls that completes (every
`ASSERT(CurrentOffset <= TotalSize)` holds), the invariant
`0 ≤ current_offset ≤ total_size` holds (the lower bound is inherent in
`Nat`), and `size_remaining` (`MmGetIoBufferSize`) returns
`total_size − current_offset`. -/
theorem claim_C4_cursor_law (ops : List CursorOp) (b b' : IoBuffer)
    (hwf : b.currentOffset ≤ b.totalSize)
    (hsize : b.totalSize < U)
    (h : runCursorOps b ops = some b') :
    b'.currentOffset ≤ b'.totalSize ∧
      MmGetIoBufferSize b' = b'.totalSize - b'.currentOffset := by
  obtain ⟨h1, h2⟩ := runCursorOps_invariant ops b b' hwf h
  refine ⟨h1, ?_⟩
  unfold MmGetIoBufferSize
  exact wsub_eq_sub h1 (h2 ▸ hsize)

/-- Sample buffer for cursor-law and resolve witnesses: two fragments of
sizes 0x1000 and 0x2000 bytes. -/
def sampleBuffer : IoBuffer :=
  { flags := { nonPaged := true }
    totalSize := 0x3000
    currentOffset := 0
    fragmentCount := 2
    maxFragmentCount := 2
    pageCount := 3
    fragments := [{ virtualAddress := 0, physicalAddress := 0x10000, size := 0x1000 },
                  { virtualAddress := 0, physicalAddress := 0x40000, size := 0x2000 }]
    pageCacheEntries := none }

/-- Witness for C4: a concrete advance/rewind sequence on `sampleBuffer`. -/
theorem claim_C4_cursor_law_witness :
    ∃ b', runCursorOps sampleBuffer [.advance 0x1800, .rewind 0x800] = some b' ∧
      (b'.currentOffset ≤ b'.totalSize ∧
        MmGetIoBufferSize b' = b'.totalSize - b'.currentOffset) := by
  refine ⟨{ sampleBuffer with currentOffset := 0x1000 }, by decide, ?_⟩
  exact claim_C4_cursor_law [.advance 0x1800, .rewind 0x800] sampleBuffer
    { sampleBuffer with currentOffset := 0x1000 }
    (by decide) (by decide) (by decide)

/-- Loop of `MmGetIoBufferPhysicalAddress` (iobuf.c:2791-2805): walk the
fragments accumulating `FragmentStart`; when the adjusted offset falls in
`[FragmentStart, FragmentEnd)` return `PhysicalAddress + (offset -
FragmentStart)`, otherwise continue; `INVALID_PHYSICAL_ADDRESS` when the
fragments are exhausted. -/
def physWalk : List IoBufferFragment → Nat → Nat → Nat
  | [], _, _ => INVALID_PHYSICAL_ADDRESS
  | f :: rest, off, fragmentStart =>
    let fragmentEnd := wadd fragmentStart f.size
    if fragmentStart ≤ off ∧ off < fragmentEnd then
      wadd f.physicalAddress (wsub off fragmentStart)
    else
      physWalk rest off fragmentEnd

/-- `MmGetIoBufferPhysicalAddress` (iobuf.c:2755-2808): add
`CurrentOffset` to the given offset and walk the active fragments. -/
def MmGetIoBufferPhysicalAddress (b : IoBuffer) (ioBufferOffset : Nat) : Nat :=
  physWalk (b.fragments.take b.fragmentCount)
    (wadd ioBufferOffset b.currentOffset) 0

/-- Sum of the sizes of a fragment list. -/
def sizesSum (fs : List IoBufferFragment) : Nat :=
  (fs.map IoBufferFragment.size).sum

theorem wadd_eq_add {a b : Nat} (h : a + b < U) : wadd a b = a + b :=
  Nat.mod_eq_of_lt h

theorem physWalk_past (fs : List IoBufferFragment) (t s : Nat)
    (hsum : s + sizesSum fs < U)
    (hle : s + sizesSum fs ≤ t) :
    physWalk fs t s = INVALID_PHYSICAL_ADDRESS := by
  induction fs generalizing s with
  | nil => rfl
  | cons f rest ih =>
    simp only [sizesSum, List.map_cons, List.sum_cons] at hsum hle
    have hfe : wadd s f.size = s + f.size := wadd_eq_add (by omega)
    simp only [physWalk, hfe]
    have hnot : ¬(s ≤ t ∧ t < s + f.size) := by omega
    rw [if_neg hnot]
    exact ih (s + f.size) (by unfold sizesSum; omega) (by unfold sizesSum; omega)

theorem sizesSum_cons (f : IoBufferFragment) (fs : List IoBufferFragment) :
    sizesSum (f :: fs) = f.size + sizesSum fs := by
  simp [sizesSum]

theorem sizesSum_nil : sizesSum [] = 0 := rfl

theorem physWalk_hit (fs : List IoBufferFragment) (t s : Nat) (i : Nat)
    (hi : i < fs.length)
    (hsum : s + sizesSum fs < U)
    (hpa : ∀ f ∈ fs, f.physicalAddress + f.size ≤ U)
    (hlo : s + sizesSum (fs.take i) ≤ t)
    (hhi : t < s + sizesSum (fs.take i) + (fs.get ⟨i, hi⟩).size) :
    physWalk fs t s =
      (fs.get ⟨i, hi⟩).physicalAddress + (t - (s + sizesSum (fs.take i))) := by
  induction fs generalizing s i with
  | nil => simp at hi
  | cons f rest ih =>
    rw [sizesSum_cons] at hsum
    cases i with
    | zero =>
      simp only [List.take_zero, sizesSum_nil, Nat.add_zero, List.get]
        at hlo hhi ⊢
      have hfe : wadd s f.size = s + f.size := wadd_eq_add (by omega)
      simp only [physWalk, hfe]
      rw [if_pos ⟨hlo, hhi⟩]
      have hts : wsub t s = t - s := wsub_eq_sub hlo (by omega)
      rw [hts]
      have hfpa : f.physicalAddress + f.size ≤ U := hpa f (by simp)
      exact wadd_eq_add (by omega)
    | succ j =>
      rw [List.take_succ_cons, sizesSum_cons] at hlo hhi
      simp only [List.take_succ_cons, sizesSum_cons, List.get] at hhi ⊢
      have hfe : wadd s f.size = s + f.size := wadd_eq_add (by omega)
      simp only [physWalk, hfe]
      have hrest : sizesSum (rest.take j) ≤ sizesSum rest := by
        conv_rhs => rw [← List.take_append_drop j rest]
        unfold sizesSum
        rw [List.map_append, List.sum_append]
        omega
      have hnot : ¬(s ≤ t ∧ t < s + f.size) := by omega
      rw [if_neg hnot]
      have hj : j < rest.length := by simpa using hi
      have hrec := ih (s + f.size) j hj (by omega)
        (fun g hg => hpa g (List.mem_cons_of_mem f hg))
        (by omega) (by omega)
      rw [hrec]
      congr 1
      omega

/-- C3: `MmGetIoBufferPhysicalAddress` returns
`fragment.physical_address + ((current_offset + offset) − fragment_start)`
for the fragment whose byte range `[fragment_start, fragment_start +
fragment.size)` contains `current_offset + offset` (such a fragment is
unique because the ranges are consecutive and disjoint), and returns
`INVALID_PHYSICAL_ADDRESS` when `current_offset + offset` lies at or past
the end of the last fragment. -/
theorem claim_C3_physical_address (b : IoBuffer) (off : Nat)
    (ht : off + b.currentOffset < U)
    (hsum : sizesSum (b.fragments.take b.fragmentCount) < U)
    (hpa : ∀ f ∈ b.fragments.take b.fragmentCount,
      f.physicalAddress + f.size ≤ U) :
    (∀ i (hi : i < (b.fragments.take b.fragmentCount).length),
      sizesSum ((b.fragments.take b.fragmentCount).take i) ≤
          off + b.currentOffset →
      off + b.currentOffset <
          sizesSum ((b.fragments.take b.fragmentCount).take i) +
          ((b.fragments.take b.fragmentCount).get ⟨i, hi⟩).size →
      MmGetIoBufferPhysicalAddress b off =
        ((b.fragments.take b.fragmentCount).get ⟨i, hi⟩).physicalAddress +
          (off + b.currentOffset -
            sizesSum ((b.fragments.take b.fragmentCount).take i))) ∧
    (sizesSum (b.fragments.take b.fragmentCount) ≤ off + b.currentOffset →
      MmGetIoBufferPhysicalAddress b off = INVALID_PHYSICAL_ADDRESS) := by
  constructor
  · intro i hi hlo hhi
    unfold MmGetIoBufferPhysicalAddress
    rw [wadd_eq_add ht]
    have := physWalk_hit (b.fragments.take b.fragmentCount)
      (off + b.currentOffset) 0 i hi (by omega) hpa (by omega) (by omega)
    rw [this]
    omega
  · intro hle
    unfold MmGetIoBufferPhysicalAddress
    rw [wadd_eq_add ht]
    exact physWalk_past _ _ 0 (by omega) (by omega)

/-- Witness for C3: resolving offset 0x1800 in `sampleBuffer` lands in the
second fragment at physical address 0x40800, and offset 0x3000 is past the
end. -/
theorem claim_C3_physical_address_witness :
    MmGetIoBufferPhysicalAddress sampleBuffer 0x1800 = 0x40800 ∧
    MmGetIoBufferPhysicalAddress sampleBuffer 0x3000 =
      INVALID_PHYSICAL_ADDRESS := by
  constructor
  · have h := (claim_C3_physical_address sampleBuffer 0x1800
      (by decide) (by decide) (by decide)).1 1 (by decide)
      (by decide) (by decide)
    rw [h]; decide
  · have h := (claim_C3_physical_address sampleBuffer 0x3000
      (by decide) (by decide) (by decide)).2 (by decide)
    exact h

/-- One `IO_VECTOR` entry: a user data pointer and a length. -/
structure IoVector where
  data : Nat
  length : Nat
  deriving DecidableEq, Repr

/-- The validation of one vector entry in `MmCreateIoBufferFromVector`
(iobuf.c:1000-1006): the range must lie below `KERNEL_VA_START` and must
not wrap.  Returns `true` when the entry is rejected. -/
def vectorViolation (kva : Nat) (v : IoVector) : Bool :=
  decide (kva ≤ v.data) || decide (kva < wadd v.data v.length) ||
    decide (wadd v.data v.length < v.data)

/-- The fragment-building loop of `MmCreateIoBufferFromVector`
(iobuf.c:988-1038).  The accumulator keeps the fragments built so far in
reverse order so that `PreviousFragment` is its head; `none` models the
`STATUS_ACCESS_VIOLATION` exit. -/
def vectorLoop (kva : Nat) :
    List IoVector → List IoBufferFragment → Nat →
      Option (List IoBufferFragment × Nat)
  | [], rev, total => some (rev, total)
  | v :: rest, rev, total =>
    if vectorViolation kva v then none
    else if v.length = 0 then vectorLoop kva rest rev total
    else
      match rev with
      | prev :: others =>
        if wadd prev.virtualAddress prev.size = v.data then
          vectorLoop kva rest
            ({ prev with size := wadd prev.size v.length } :: others)
            (wadd total v.length)
        else
          vectorLoop kva rest
            ({ virtualAddress := v.data, physicalAddress := 0,
               size := v.length } :: prev :: others)
            (wadd total v.length)
      | [] =>
        vectorLoop kva rest
          [{ virtualAddress := v.data, physicalAddress := 0,
             size := v.length }]
          (wadd total v.length)

/-- `MmCreateIoBufferFromVector` (iobuf.c:871-1058).  `kva` stands for the
platform constant `KERNEL_VA_START` and `maxIoVectorCount` for the header
constant `MAX_IO_VECTOR_COUNT`; `poolOk` is the paged-pool collaborator's
answer for the descriptor allocation.  The user-mode copy of the vector
array itself is represented by the already-copied `vectors` list. -/
def MmCreateIoBufferFromVector (vectors : List IoVector) (kva : Nat)
    (maxIoVectorCount : Nat) (poolOk : Bool) : KSTATUS × Option IoBuffer :=
  if vectors.length > maxIoVectorCount ∨ vectors.length = 0 then
    (.invalidParameter, none)
  else if !poolOk then (.insufficientResources, none)
  else
    match vectorLoop kva vectors [] 0 with
    | none => (.accessViolation, none)
    | some (rev, total) =>
      (.success, some
        { flags := { userMode := true, mapped := true }
          totalSize := total
          currentOffset := 0
          fragmentCount := rev.length
          maxFragmentCount := vectors.length
          pageCount := 0
          fragments := rev.reverse ++
            List.replicate (vectors.length - rev.length) {}
          pageCacheEntries := none })

/-- Spec-side description of one step of the vector walk, written from the
spec text: skip a zero-length entry; an entry whose start address equals
the previous fragment's virtual end is merged into that fragment;
otherwise a new fragment `(address, length)` is started. -/
def specCoalesceStep (acc : List (Nat × Nat)) (v : IoVector) :
    List (Nat × Nat) :=
  if v.length = 0 then acc
  else
    match acc.getLast? with
    | some lastF =>
      if lastF.1 + lastF.2 = v.data then
        acc.dropLast ++ [(lastF.1, lastF.2 + v.length)]
      else acc ++ [(v.data, v.length)]
    | none => [(v.data, v.length)]

/-- Spec-side description of the whole vector walk. -/
def specCoalesceVectors (entries : List IoVector) : List (Nat × Nat) :=
  entries.foldl specCoalesceStep []

/-- The pair view of a fragment used to compare with the spec walk. -/
def fragPair (f : IoBufferFragment) : Nat × Nat :=
  (f.virtualAddress, f.size)

theorem vectorLoop_spec (kva : Nat) (entries : List IoVector)
    (rev : List IoBufferFragment) (total : Nat)
    (hkva : kva < U)
    (hv : ∀ v ∈ entries, v.data < kva ∧ v.data + v.length ≤ kva)
    (hrev : ∀ f ∈ rev, f.virtualAddress + f.size ≤ kva)
    (htot : total + (entries.map IoVector.length).sum < U) :
    ∃ rev' total',
      vectorLoop kva entries rev total = some (rev', total') ∧
      rev'.reverse.map fragPair =
        entries.foldl specCoalesceStep (rev.reverse.map fragPair) ∧
      total' = total + (entries.map IoVector.length).sum ∧
      (∀ f ∈ rev', f.virtualAddress + f.size ≤ kva) := by
  induction entries generalizing rev total with
  | nil =>
    refine ⟨rev, total, rfl, rfl, by simp, hrev⟩
  | cons v rest ih =>
    have hvhead := hv v (by simp)
    have hvrest : ∀ w ∈ rest, w.data < kva ∧ w.data + w.length ≤ kva :=
      fun w hw => hv w (List.mem_cons_of_mem v hw)
    have hdlU : v.data + v.length < U := by omega
    have hwaddv : wadd v.data v.length = v.data + v.length := wadd_eq_add hdlU
    have hnoviol : vectorViolation kva v = false := by
      simp only [vectorViolation, hwaddv]
      simp only [Bool.or_eq_false_iff, decide_eq_false_iff_not, not_lt, not_le]
      omega
    simp only [List.map_cons, List.sum_cons] at htot
    by_cases hz : v.length = 0
    · obtain ⟨rev', total', hrun, hfold, htotal, hinv⟩ :=
        ih rev total hvrest hrev (by omega)
      refine ⟨rev', total', ?_, ?_, ?_, hinv⟩
      · simp only [vectorLoop, hnoviol, Bool.false_eq_true, if_false, hz,
          if_true]
        exact hrun
      · rw [hfold]
        simp only [List.foldl_cons, specCoalesceStep, hz, if_true]
      · simp only [List.map_cons, List.sum_cons, hz]
        omega
    · cases rev with
      | nil =>
        have hfrag : ∀ f ∈ ([⟨v.data, 0, v.length⟩] : List IoBufferFragment),
            f.virtualAddress + f.size ≤ kva := by
          intro f hf
          simp only [List.mem_singleton] at hf
          subst hf
          exact hvhead.2
        obtain ⟨rev', total', hrun, hfold, htotal, hinv⟩ :=
          ih _ (wadd total v.length) hvrest hfrag
            (by rw [wadd_eq_add (by omega)]; omega)
        refine ⟨rev', total', ?_, ?_, ?_, hinv⟩
        · simp only [vectorLoop, hnoviol, Bool.false_eq_true, if_false, hz,
            if_neg hz]
          exact hrun
        · rw [hfold]
          simp only [List.foldl_cons, specCoalesceStep, hz, if_neg hz,
            List.reverse_nil,
            List.map_nil, List.getLast?_nil, List.reverse_cons,
            List.map_cons]
          rfl
        · rw [htotal, wadd_eq_add (by omega)]
          simp only [List.map_cons, List.sum_cons]
          omega
      | cons prev others =>
        have hprev : prev.virtualAddress + prev.size ≤ kva :=
          hrev prev (by simp)
        have hothers : ∀ f ∈ others, f.virtualAddress + f.size ≤ kva :=
          fun f hf => hrev f (List.mem_cons_of_mem prev hf)
        have hwaddp : wadd prev.virtualAddress prev.size =
            prev.virtualAddress + prev.size := wadd_eq_add (by omega)
        have hlast : ((prev :: others).reverse.map fragPair).getLast? =
            some (fragPair prev) := by
          simp only [List.reverse_cons, List.map_append, List.map_cons,
            List.map_nil]
          exact List.getLast?_concat _
        have hdrop : ((prev :: others).reverse.map fragPair).dropLast =
            others.reverse.map fragPair := by
          simp only [List.reverse_cons, List.map_append, List.map_cons,
            List.map_nil]
          exact List.dropLast_concat
        by_cases hmerge : prev.virtualAddress + prev.size = v.data
        · have hnewsz : prev.size + v.length ≤ kva := by omega
          have hmergedFrag : ∀ f ∈
              ({ prev with size := wadd prev.size v.length } :: others),
              f.virtualAddress + f.size ≤ kva := by
            intro f hf
            rcases List.mem_cons.mp hf with hf | hf
            · subst hf
              simp only [wadd_eq_add (lt_of_le_of_lt hnewsz hkva)]
              omega
            · exact hothers f hf
          obtain ⟨rev', total', hrun, hfold, htotal, hinv⟩ :=
            ih _ (wadd total v.length) hvrest hmergedFrag
              (by rw [wadd_eq_add (by omega)]; omega)
          refine ⟨rev', total', ?_, ?_, ?_, hinv⟩
          · simp only [vectorLoop, hnoviol, Bool.false_eq_true, if_false,
              if_neg hz, hwaddp, if_pos hmerge]
            exact hrun
          · rw [hfold]
            simp only [List.foldl_cons, specCoalesceStep, if_neg hz, hlast,
              hdrop]
            simp only [fragPair]
            rw [if_pos hmerge]
            congr 1
            simp only [List.reverse_cons, List.map_append, List.map_cons,
              List.map_nil, fragPair,
              wadd_eq_add (lt_of_le_of_lt hnewsz hkva)]
          · rw [htotal, wadd_eq_add (by omega)]
            simp only [List.map_cons, List.sum_cons]
            omega
        · have hnewFrag : ∀ f ∈
              ({ virtualAddress := v.data, physicalAddress := 0,
                  size := v.length } : IoBufferFragment) :: prev :: others,
              f.virtualAddress + f.size ≤ kva := by
            intro f hf
            rcases List.mem_cons.mp hf with hf | hf
            · subst hf
              exact hvhead.2
            · exact hrev f hf
          obtain ⟨rev', total', hrun, hfold, htotal, hinv⟩ :=
            ih _ (wadd total v.length) hvrest hnewFrag
              (by rw [wadd_eq_add (by omega)]; omega)
          refine ⟨rev', total', ?_, ?_, ?_, hinv⟩
          · simp only [vectorLoop, hnoviol, Bool.false_eq_true, if_false,
              if_neg hz, hwaddp, if_neg hmerge]
            exact hrun
          · rw [hfold]
            simp only [List.foldl_cons, specCoalesceStep, if_neg hz, hlast]
            simp only [fragPair]
            rw [if_neg hmerge]
            congr 1
            simp [fragPair]
          · rw [htotal, wadd_eq_add (by omega)]
            simp only [List.map_cons, List.sum_cons]
            omega

/-- C5: for a valid vector array (nonempty, within the count limit, every
range within user space), `MmCreateIoBufferFromVector` builds exactly the
fragments described by the spec walk `specCoalesceVectors` — zero-length
entries skipped, abutting entries merged — and `total_size` is the sum of
all entry lengths; the buffer is a user-mode mapped buffer. -/
theorem claim_C5_vector_coalesce (entries : List IoVector)
    (kva maxIoVectorCount : Nat)
    (hne : entries.length ≠ 0) (hcount : entries.length ≤ maxIoVectorCount)
    (hkva : kva < U)
    (hv : ∀ v ∈ entries, v.data < kva ∧ v.data + v.length ≤ kva)
    (hsum : (entries.map IoVector.length).sum < U) :
    ∃ b, MmCreateIoBufferFromVector entries kva maxIoVectorCount true =
        (.success, some b) ∧
      (b.fragments.take b.fragmentCount).map fragPair =
        specCoalesceVectors entries ∧
      b.totalSize = (entries.map IoVector.length).sum ∧
      b.flags = { userMode := true, mapped := true } := by
  obtain ⟨rev', total', hrun, hfold, htotal, hinv⟩ :=
    vectorLoop_spec kva entries [] 0 hkva hv (by simp) (by omega)
  refine ⟨{ flags := { userMode := true, mapped := true }
            totalSize := total'
            currentOffset := 0
            fragmentCount := rev'.length
            maxFragmentCount := entries.length
            pageCount := 0
            fragments := rev'.reverse ++
              List.replicate (entries.length - rev'.length) {}
            pageCacheEntries := none }, ?_, ?_, by simpa using htotal, rfl⟩
  · unfold MmCreateIoBufferFromVector
    rw [if_neg (by omega), if_neg (by simp), hrun]
  · simp only
    have hlen : rev'.reverse.length = rev'.length := List.length_reverse rev'
    rw [← hlen, List.take_left, hfold]
    simp [specCoalesceVectors]

/-- Witness for C5: the spec's concrete scenario.  The vector
`[{0x1000, 100}, {0x1064, 200}, {0x2000, 50}]` yields exactly two
fragments `{0x1000, 300}` and `{0x2000, 50}` and `total_size = 350`
(`KERNEL_VA_START` taken as `2^63`, `MAX_IO_VECTOR_COUNT` as 1024). -/
theorem claim_C5_vector_coalesce_witness :
    ∃ b, MmCreateIoBufferFromVector
        [⟨0x1000, 100⟩, ⟨0x1064, 200⟩, ⟨0x2000, 50⟩] (2 ^ 63) 1024 true =
        (.success, some b) ∧
      (b.fragments.take b.fragmentCount).map fragPair =
        [(0x1000, 300), (0x2000, 50)] ∧
      b.totalSize = 350 := by
  obtain ⟨b, hrun, hfrag, htot, hflags⟩ :=
    claim_C5_vector_coalesce
      [⟨0x1000, 100⟩, ⟨0x1064, 200⟩, ⟨0x2000, 50⟩] (2 ^ 63) 1024
      (by decide) (by decide) (by decide) (by decide) (by decide)
  refine ⟨b, hrun, ?_, by simpa using htot⟩
  rw [hfrag]
  decide

/-- C10 as frozen is false: a zero-length vector entry still has its
address validated, so a vector array whose single entry has length zero
but a kernel-space address is rejected with `STATUS_ACCESS_VIOLATION`
instead of producing an empty buffer (`KERNEL_VA_START` taken as `2^63`,
`MAX_IO_VECTOR_COUNT` as 1024, pool allocation succeeding). -/
theorem claim_C10_counterexample :
    MmCreateIoBufferFromVector [⟨2 ^ 63, 0⟩] (2 ^ 63) 1024 true =
      (KSTATUS.accessViolation, none) := by
  decide

theorem foldl_specCoalesceStep_all_zero (entries : List IoVector)
    (acc : List (Nat × Nat)) (hv : ∀ v ∈ entries, v.length = 0) :
    entries.foldl specCoalesceStep acc = acc := by
  induction entries generalizing acc with
  | nil => rfl
  | cons v rest ih =>
    simp only [List.foldl_cons, specCoalesceStep, hv v (by simp), if_pos rfl]
    exact ih acc (fun w hw => hv w (List.mem_cons_of_mem v hw))

/-- C10 (amended): for every vector array with a valid count whose entries
all have length zero and addresses below the kernel boundary, and whose
descriptor allocation succeeds, `MmCreateIoBufferFromVector` returns
success with a buffer whose `fragment_count` is 0 and `total_size` is 0
and flags `USER_MODE | MAPPED` — an entirely empty fragment list is
reachable at the public interface, even though `MmMapIoBuffer` asserts at
least one fragment. -/
theorem claim_C10_empty_vectors (entries : List IoVector)
    (kva maxIoVectorCount : Nat)
    (hne : entries.length ≠ 0) (hcount : entries.length ≤ maxIoVectorCount)
    (hkva : kva < U)
    (hv : ∀ v ∈ entries, v.length = 0 ∧ v.data < kva) :
    ∃ b, MmCreateIoBufferFromVector entries kva maxIoVectorCount true =
        (.success, some b) ∧
      b.fragmentCount = 0 ∧ b.totalSize = 0 ∧
      b.flags = { userMode := true, mapped := true } := by
  have hsum : (entries.map IoVector.length).sum = 0 := by
    rw [List.sum_eq_zero]
    intro x hx
    obtain ⟨v, hvmem, hvx⟩ := List.mem_map.mp hx
    rw [← hvx]
    exact (hv v hvmem).1
  obtain ⟨rev', total', hrun, hfold, htotal, hinv⟩ :=
    vectorLoop_spec kva entries [] 0 hkva
      (fun v hvm => ⟨(hv v hvm).2, by
        have := (hv v hvm).1
        have := (hv v hvm).2
        omega⟩)
      (by simp) (by rw [hsum]; simp [U])
  have hrevnil : rev' = [] := by
    rw [foldl_specCoalesceStep_all_zero entries _
      (fun v hvm => (hv v hvm).1)] at hfold
    simp only [List.reverse_nil, List.map_nil] at hfold
    have : rev'.reverse = [] := List.map_eq_nil_iff.mp hfold
    simpa using congrArg List.reverse this
  subst hrevnil
  refine ⟨{ flags := { userMode := true, mapped := true }
            totalSize := total'
            currentOffset := 0
            fragmentCount := 0
            maxFragmentCount := entries.length
            pageCount := 0
            fragments := List.replicate entries.length {}
            pageCacheEntries := none }, ?_, rfl, ?_, rfl⟩
  · unfold MmCreateIoBufferFromVector
    rw [if_neg (by omega), if_neg (by simp), hrun]
    simp
  · simp only
    omega

/-- Witness for the amended C10: a single zero-length entry at a valid
user address yields the empty buffer. -/
theorem claim_C10_empty_vectors_witness :
    ∃ b, MmCreateIoBufferFromVector [⟨0x1000, 0⟩] (2 ^ 63) 1024 true =
        (.success, some b) ∧
      b.fragmentCount = 0 ∧ b.totalSize = 0 ∧
      b.flags = { userMode := true, mapped := true } :=
  claim_C10_empty_vectors [⟨0x1000, 0⟩] (2 ^ 63) 1024
    (by decide) (by decide) (by decide) (by decide)

/-- One call to the collaborator `MmpAllocatePhysicalPages`: consume the
next scripted result (the returned physical address; `0` is
`INVALID_PHYSICAL_ADDRESS`, i.e. allocation failure; an exhausted script
also fails). -/
def allocNext : List Nat → Nat × List Nat
  | [] => (0, [])
  | r :: rest => (r, rest)

/-- The shared append step of `MmpExtendIoBuffer` (iobuf.c:3565-3587 and
3609-3631): when the last fragment has no virtual address and is
physically adjacent to the new pages, glue them onto it; otherwise open
the next fragment slot, which the code asserts to be zeroed.  Returns the
updated buffer and the updated `FragmentIndex`; `totalSize` is updated by
the caller exactly where the C code does it. -/
def extendAttach (b : IoBuffer) (fragmentIndex : Nat) (pa addSize : Nat) :
    Option (IoBuffer × Nat) :=
  match b.fragments.get? fragmentIndex with
  | none => none
  | some f =>
    if f.virtualAddress = 0 ∧ wadd f.physicalAddress f.size = pa then
      if f.size = 0 then none
      else
        let nf := { f with size := wadd f.size addSize }
        some ({ b with fragments := b.fragments.set fragmentIndex nf },
          fragmentIndex)
    else
      let fragmentIndex2 :=
        if b.fragmentCount ≠ 0 then fragmentIndex + 1 else fragmentIndex
      if fragmentIndex2 < b.maxFragmentCount then
        match b.fragments.get? fragmentIndex2 with
        | none => none
        | some g =>
          if g.virtualAddress = 0 ∧
              g.physicalAddress = INVALID_PHYSICAL_ADDRESS ∧ g.size = 0 then
            let nf : IoBufferFragment :=
              { virtualAddress := 0, physicalAddress := pa, size := addSize }
            some ({ b with
              fragments := b.fragments.set fragmentIndex2 nf
              fragmentCount := b.fragmentCount + 1 }, fragmentIndex2)
          else none
      else none

/-- The per-page loop of the non-contiguous path of `MmpExtendIoBuffer`
(iobuf.c:3597-3634): allocate one page at a time, attach it, and grow
`TotalSize` by one page per iteration. -/
def extendLoop (ps : Nat) :
    Nat → IoBuffer → Nat → List Nat →
      Option (KSTATUS × IoBuffer × List Nat)
  | 0, b, _, alloc => some (.success, b, alloc)
  | n + 1, b, fi, alloc =>
    let (pa, alloc2) := allocNext alloc
    if pa = INVALID_PHYSICAL_ADDRESS then some (.noMemory, b, alloc2)
    else
      match extendAttach b fi pa (2 ^ ps) with
      | none => none
      | some (b1, fi1) =>
        extendLoop ps n
          ({ b1 with totalSize := wadd b1.totalSize (2 ^ ps) }) fi1 alloc2

/-- The flag update after a successful extension (iobuf.c:3643-3644):
clear `MAPPED`, set `MEMORY_OWNED`. -/
def extendFinishFlags (b : IoBuffer) : IoBuffer :=
  { b with flags := { b.flags with mapped := false, memoryOwned := true } }

/-- `MmpExtendIoBuffer` (iobuf.c:3460-3649).  `alloc` scripts the
collaborator `MmpAllocatePhysicalPages`.  The entry asserts model the
`EXTENDABLE` assert and the TODO assert restricting the physical range to
`MinimumPhysicalAddress == 0` and `MaximumPhysicalAddress` either
`MAX_ULONG` or `MAX_ULONGLONG`. -/
def MmpExtendIoBuffer (ps : Nat) (b : IoBuffer)
    (minPA maxPA alignment size : Nat) (contig : Bool) (alloc : List Nat) :
    Option (KSTATUS × IoBuffer × List Nat) :=
  if b.flags.extendable = false then none
  else if minPA = 0 ∧ (maxPA = 2 ^ 32 - 1 ∨ maxPA = U - 1) then
    let pageSize := 2 ^ ps
    let availableFragments := wsub b.maxFragmentCount b.fragmentCount
    let pageCount := alignRangeUp size pageSize / pageSize
    if pageCount > availableFragments then some (.bufferTooSmall, b, alloc)
    else
      let fragmentIndex :=
        if b.fragmentCount ≠ 0 then b.fragmentCount - 1 else 0
      if contig then
        let (pa, alloc2) := allocNext alloc
        if pa = INVALID_PHYSICAL_ADDRESS then some (.noMemory, b, alloc2)
        else
          match extendAttach b fragmentIndex pa ((pageCount <<< ps) % U) with
          | none => none
          | some (b1, _) =>
            let b2 := { b1 with
              totalSize := wadd b1.totalSize ((pageCount <<< ps) % U) }
            some (.success, extendFinishFlags b2, alloc2)
      else
        match extendLoop ps pageCount b fragmentIndex alloc with
        | none => none
        | some (st, b2, alloc2) =>
          if st = KSTATUS.success then
            some (.success, extendFinishFlags b2, alloc2)
          else some (st, b2, alloc2)
  else none

/-- `MmAllocateUninitializedIoBuffer` (iobuf.c:492-559): reserve one
fragment slot per page of the rounded-up size; the buffer starts empty,
`NON_PAGED | EXTENDABLE`, plus `PAGE_CACHE_BACKED | MEMORY_LOCKED` and a
cache-entry table when cache backed.  `poolOk` is the non-paged-pool
collaborator's answer. -/
def MmAllocateUninitializedIoBuffer (ps : Nat) (size : Nat)
    (cacheBacked : Bool) (poolOk : Bool) : Option IoBuffer :=
  if poolOk = false then none
  else
    let size2 := alignRangeUp size (2 ^ ps)
    let pageCount := size2 >>> ps
    some
      { flags := { nonPaged := true, extendable := true,
                   pageCacheBacked := cacheBacked,
                   memoryLocked := cacheBacked }
        totalSize := 0
        currentOffset := 0
        fragmentCount := 0
        maxFragmentCount := pageCount
        pageCount := pageCount
        fragments := List.replicate pageCount {}
        pageCacheEntries :=
          if cacheBacked then some (List.replicate pageCount none) else none }

theorem extendAttach_totalSize {b : IoBuffer} {fi pa addSize : Nat}
    {b1 : IoBuffer} {fi1 : Nat}
    (h : extendAttach b fi pa addSize = some (b1, fi1)) :
    b1.totalSize = b.totalSize := by
  unfold extendAttach at h
  cases hg : b.fragments.get? fi with
  | none => rw [hg] at h; simp at h
  | some f =>
    simp only [hg] at h
    by_cases h1 : f.virtualAddress = 0 ∧ wadd f.physicalAddress f.size = pa
    · rw [if_pos h1] at h
      by_cases h2 : f.size = 0
      · rw [if_pos h2] at h; simp at h
      · rw [if_neg h2] at h
        simp only [Option.some.injEq, Prod.mk.injEq] at h
        rw [← h.1]
    · rw [if_neg h1] at h
      by_cases h3 : (if b.fragmentCount ≠ 0 then fi + 1 else fi) <
          b.maxFragmentCount
      · rw [if_pos h3] at h
        cases hg2 : b.fragments.get?
            (if b.fragmentCount ≠ 0 then fi + 1 else fi) with
        | none => rw [hg2] at h; simp at h
        | some g =>
          simp only [hg2] at h
          by_cases h4 : g.virtualAddress = 0 ∧
              g.physicalAddress = INVALID_PHYSICAL_ADDRESS ∧ g.size = 0
          · rw [if_pos h4] at h
            simp only [Option.some.injEq, Prod.mk.injEq] at h
            rw [← h.1]
          · rw [if_neg h4] at h; simp at h
      · rw [if_neg h3] at h; simp at h

theorem extendLoop_characterize (ps : Nat) (n : Nat) (b : IoBuffer)
    (fi : Nat) (alloc : List Nat) (st : KSTATUS) (b2 : IoBuffer)
    (alloc2 : List Nat) (ht : b.totalSize < U)
    (h : extendLoop ps n b fi alloc = some (st, b2, alloc2)) :
    (st = .success ∨ st = .noMemory) ∧
    (st = .success → b2.totalSize = (b.totalSize + n * 2 ^ ps) % U) ∧
    (st = .noMemory →
      ∃ k, k < n ∧ b2.totalSize = (b.totalSize + k * 2 ^ ps) % U) := by
  induction n generalizing b fi alloc with
  | zero =>
    simp only [extendLoop, Option.some.injEq, Prod.mk.injEq] at h
    obtain ⟨hst, hb, _⟩ := h
    subst hst hb
    refine ⟨Or.inl rfl, fun _ => ?_, fun hc => by simp at hc⟩
    rw [Nat.mul_comm, Nat.mul_zero, Nat.add_zero, Nat.mod_eq_of_lt ht]
  | succ n ih =>
    simp only [extendLoop] at h
    rcases halloc : allocNext alloc with ⟨pa, allocB⟩
    rw [halloc] at h
    dsimp only at h
    by_cases hpa : pa = INVALID_PHYSICAL_ADDRESS
    · rw [if_pos hpa] at h
      simp only [Option.some.injEq, Prod.mk.injEq] at h
      obtain ⟨hst, hb, _⟩ := h
      subst hst hb
      refine ⟨Or.inr rfl, fun hc => by simp at hc, fun _ => ?_⟩
      exact ⟨0, Nat.succ_pos n, by
        rw [Nat.mul_comm, Nat.mul_zero, Nat.add_zero, Nat.mod_eq_of_lt ht]⟩
    · rw [if_neg hpa] at h
      cases hatt : extendAttach b fi pa (2 ^ ps) with
      | none => rw [hatt] at h; simp at h
      | some r =>
        rcases r with ⟨b1, fi1⟩
        rw [hatt] at h
        dsimp only at h
        have htb1 : b1.totalSize = b.totalSize := extendAttach_totalSize hatt
        have hw : wadd b1.totalSize (2 ^ ps) =
            (b.totalSize + 2 ^ ps) % U := by rw [htb1]; rfl
        have hlt : ((b.totalSize + 2 ^ ps) % U) < U :=
          Nat.mod_lt _ (by norm_num [U])
        obtain ⟨hor, hsucc, hnm⟩ := ih
          { b1 with totalSize := wadd b1.totalSize (2 ^ ps) } fi1 allocB
          (by simpa only [hw] using hlt) h
        refine ⟨hor, ?_, ?_⟩
        · intro hs
          have := hsucc hs
          simp only [hw] at this
          rw [this, Nat.mod_add_mod]
          congr 1
          ring
        · intro hs
          obtain ⟨k, hk, hktot⟩ := hnm hs
          refine ⟨k + 1, by omega, ?_⟩
          simp only [hw] at hktot
          rw [hktot, Nat.mod_add_mod]
          congr 1
          ring

theorem alignRangeDown_div (x a : Nat) (ha : 0 < a) :
    alignRangeDown x a / a = x / a := by
  unfold alignRangeDown
  have hx : x - x % a = a * (x / a) := by
    have := Nat.mod_add_div x a
    omega
  rw [hx, Nat.mul_div_cancel_left _ ha]

theorem alignRangeDown_mul (x a : Nat) :
    alignRangeDown x a = a * (x / a) := by
  unfold alignRangeDown
  have := Nat.mod_add_div x a
  omega

theorem alignRangeUp_small {x a : Nat} (ha : 0 < a) (hx : x + a ≤ U) :
    alignRangeUp x a = a * ((x + a - 1) / a) := by
  unfold alignRangeUp
  rw [Nat.mod_eq_of_lt (by omega)]
  exact alignRangeDown_mul _ _

/-- C7: `MmpExtendIoBuffer` computes `page_count = ceil(size/page_size)`
and, whenever that exceeds the free fragment slots
`max_fragment_count − fragment_count`, returns `BUFFER_TOO_SMALL`
without consulting the physical page allocator (the script is returned
untouched) and without modifying the buffer. -/
theorem claim_C7_extend_slots (ps : Nat) (b : IoBuffer)
    (minPA maxPA alignment size : Nat) (contig : Bool) (alloc : List Nat)
    (hext : b.flags.extendable = true)
    (hmin : minPA = 0) (hmax : maxPA = 2 ^ 32 - 1 ∨ maxPA = U - 1)
    (hfc : b.fragmentCount ≤ b.maxFragmentCount)
    (hmaxU : b.maxFragmentCount < U)
    (hnowrap : size + 2 ^ ps ≤ U)
    (hcount : (size + 2 ^ ps - 1) / 2 ^ ps >
      b.maxFragmentCount - b.fragmentCount) :
    MmpExtendIoBuffer ps b minPA maxPA alignment size contig alloc =
      some (.bufferTooSmall, b, alloc) := by
  unfold MmpExtendIoBuffer
  rw [hext]
  rw [if_neg (by simp), if_pos (And.intro hmin hmax)]
  have hp : 0 < 2 ^ ps := Nat.pos_pow_of_pos ps (by norm_num)
  have havail : wsub b.maxFragmentCount b.fragmentCount =
      b.maxFragmentCount - b.fragmentCount := wsub_eq_sub hfc hmaxU
  have hup : alignRangeUp size (2 ^ ps) =
      2 ^ ps * ((size + 2 ^ ps - 1) / 2 ^ ps) := alignRangeUp_small hp hnowrap
  dsimp only
  rw [havail, hup, Nat.mul_div_cancel_left _ hp, if_pos hcount]

/-- The buffer `MmAllocateUninitializedIoBuffer(4096, FALSE)` produces
with a 4 KiB page size: one fragment slot, one page. -/
def c7Buffer : IoBuffer :=
  { flags := { nonPaged := true, extendable := true }
    totalSize := 0
    currentOffset := 0
    fragmentCount := 0
    maxFragmentCount := 1
    pageCount := 1
    fragments := [{}]
    pageCacheEntries := none }

/-- Witness for C7: the spec scenario.  An uninitialized buffer of size
4096 (one fragment slot) extended by 8192 bytes non-contiguously fails
with `BUFFER_TOO_SMALL`, the buffer unchanged and the allocator never
consulted. -/
theorem claim_C7_extend_slots_witness :
    MmAllocateUninitializedIoBuffer 12 4096 false true = some c7Buffer ∧
    MmpExtendIoBuffer 12 c7Buffer 0 (2 ^ 64 - 1) 4096 8192 false
        [0x5000, 0x7000] =
      some (.bufferTooSmall, c7Buffer, [0x5000, 0x7000]) := by
  constructor
  · decide
  · exact claim_C7_extend_slots 12 c7Buffer 0 (2 ^ 64 - 1) 4096 8192 false
      [0x5000, 0x7000] (by decide) rfl (by right; rfl) (by decide)
      (by decide) (by decide) (by decide)

/-- C1 (amended): for an `EXTENDABLE` buffer, `MmpExtendIoBuffer` with
requested size `k` increases `total_size` by exactly
`ceil(k/page_size) × page_size` on success; on `BUFFER_TOO_SMALL` the
buffer and the allocator script are untouched; on allocation failure in
the physically contiguous path the buffer is untouched; but on an
allocation failure in the non-contiguous path the buffer is left partially
extended: `total_size` has grown by one page per page already allocated
(strictly less than the requested amount). -/
theorem claim_C1_extend_total_size (ps : Nat) (b : IoBuffer)
    (minPA maxPA alignment size : Nat) (contig : Bool) (alloc : List Nat)
    (hsize : 0 < size)
    (hnowrap : size + 2 ^ ps ≤ U)
    (ht : b.totalSize < U)
    (htot : b.totalSize + alignRangeUp size (2 ^ ps) < U) :
    ∀ st b2 alloc2,
      MmpExtendIoBuffer ps b minPA maxPA alignment size contig alloc =
          some (st, b2, alloc2) →
        (st = .success →
          b2.totalSize =
            b.totalSize + ((size + 2 ^ ps - 1) / 2 ^ ps) * 2 ^ ps) ∧
        (st = .bufferTooSmall → b2 = b ∧ alloc2 = alloc) ∧
        (st = .noMemory → contig = true → b2 = b) ∧
        (st = .noMemory →
          ∃ k, k * 2 ^ ps < ((size + 2 ^ ps - 1) / 2 ^ ps) * 2 ^ ps ∧
            b2.totalSize = b.totalSize + k * 2 ^ ps) := by
  intro st b2 alloc2 h
  have hp : 0 < 2 ^ ps := Nat.pos_pow_of_pos ps (by norm_num)
  have hup : alignRangeUp size (2 ^ ps) =
      2 ^ ps * ((size + 2 ^ ps - 1) / 2 ^ ps) :=
    alignRangeUp_small hp hnowrap
  have hceil : 0 < (size + 2 ^ ps - 1) / 2 ^ ps :=
    Nat.div_pos (by omega) hp
  have hcomm : ((size + 2 ^ ps - 1) / 2 ^ ps) * 2 ^ ps =
      2 ^ ps * ((size + 2 ^ ps - 1) / 2 ^ ps) := Nat.mul_comm _ _
  unfold MmpExtendIoBuffer at h
  by_cases hext : b.flags.extendable = false
  · rw [if_pos hext] at h; exact absurd h (by simp)
  rw [if_neg hext] at h
  by_cases hmm : minPA = 0 ∧ (maxPA = 2 ^ 32 - 1 ∨ maxPA = U - 1)
  swap
  · rw [if_neg hmm] at h; exact absurd h (by simp)
  rw [if_pos hmm] at h
  dsimp only at h
  have hpc : alignRangeUp size (2 ^ ps) / 2 ^ ps =
      (size + 2 ^ ps - 1) / 2 ^ ps := by
    rw [hup, Nat.mul_div_cancel_left _ hp]
  by_cases hsmall : alignRangeUp size (2 ^ ps) / 2 ^ ps >
      wsub b.maxFragmentCount b.fragmentCount
  · rw [if_pos hsmall] at h
    simp only [Option.some.injEq, Prod.mk.injEq] at h
    obtain ⟨hst, hb, hal⟩ := h
    subst hst
    exact ⟨by simp, fun _ => ⟨hb.symm, hal.symm⟩, by simp, by simp⟩
  rw [if_neg hsmall] at h
  by_cases hcontig : contig = true
  · rw [if_pos hcontig] at h
    rcases halloc : allocNext alloc with ⟨pa, allocB⟩
    rw [halloc] at h
    dsimp only at h
    by_cases hpa : pa = INVALID_PHYSICAL_ADDRESS
    · rw [if_pos hpa] at h
      simp only [Option.some.injEq, Prod.mk.injEq] at h
      obtain ⟨hst, hb, hal⟩ := h
      subst hst
      refine ⟨by simp, by simp, fun _ _ => hb.symm, fun _ => ⟨0, ?_, ?_⟩⟩
      · simpa using Nat.mul_pos hceil hp
      · rw [← hb]; omega
    · rw [if_neg hpa] at h
      cases hatt : extendAttach b
          (if b.fragmentCount ≠ 0 then b.fragmentCount - 1 else 0) pa
          (((alignRangeUp size (2 ^ ps) / 2 ^ ps) <<< ps) % U) with
      | none => rw [hatt] at h; exact absurd h (by simp)
      | some r =>
        rcases r with ⟨b1, fi1⟩
        rw [hatt] at h
        dsimp only at h
        simp only [Option.some.injEq, Prod.mk.injEq] at h
        obtain ⟨hst, hb, hal⟩ := h
        subst hst
        refine ⟨fun _ => ?_, by simp, by simp, by simp⟩
        have htb1 : b1.totalSize = b.totalSize := extendAttach_totalSize hatt
        have hrun : ((alignRangeUp size (2 ^ ps) / 2 ^ ps) <<< ps) % U =
            ((size + 2 ^ ps - 1) / 2 ^ ps) * 2 ^ ps := by
          rw [hpc, Nat.shiftLeft_eq]
          exact Nat.mod_eq_of_lt (by omega)
        rw [← hb]
        show wadd b1.totalSize (((alignRangeUp size (2 ^ ps) / 2 ^ ps) <<< ps)
          % U) = b.totalSize + (size + 2 ^ ps - 1) / 2 ^ ps * 2 ^ ps
        rw [hrun, htb1]
        unfold wadd
        exact Nat.mod_eq_of_lt (by omega)
  · rw [if_neg hcontig] at h
    cases hloop : extendLoop ps (alignRangeUp size (2 ^ ps) / 2 ^ ps) b
        (if b.fragmentCount ≠ 0 then b.fragmentCount - 1 else 0) alloc with
    | none => rw [hloop] at h; exact absurd h (by simp)
    | some r =>
      rcases r with ⟨st0, bL, aL⟩
      rw [hloop] at h
      dsimp only at h
      obtain ⟨hor, hsucc, hnm⟩ := extendLoop_characterize ps _ b _ alloc
        st0 bL aL ht hloop
      by_cases hst0 : st0 = KSTATUS.success
      · rw [if_pos hst0] at h
        simp only [Option.some.injEq, Prod.mk.injEq] at h
        obtain ⟨hst, hb, hal⟩ := h
        subst hst
        refine ⟨fun _ => ?_, by simp, by simp, by simp⟩
        have := hsucc hst0
        rw [← hb]
        show bL.totalSize = _
        rw [this, hpc]
        exact Nat.mod_eq_of_lt (by omega)
      · rw [if_neg hst0] at h
        have hnmem : st0 = KSTATUS.noMemory := by
          rcases hor with h1 | h1
          · exact absurd h1 hst0
          · exact h1
        simp only [Option.some.injEq, Prod.mk.injEq] at h
        obtain ⟨hst, hb, hal⟩ := h
        subst hnmem
        subst hst
        refine ⟨by simp, by simp, fun _ hc => absurd hc hcontig,
          fun _ => ?_⟩
        obtain ⟨k, hk, hktot⟩ := hnm rfl
        rw [hpc] at hk
        refine ⟨k, ?_, ?_⟩
        · exact (Nat.mul_lt_mul_right hp).mpr hk
        · rw [← hb, hktot]
          have hkp : k * 2 ^ ps < ((size + 2 ^ ps - 1) / 2 ^ ps) * 2 ^ ps :=
            (Nat.mul_lt_mul_right hp).mpr hk
          exact Nat.mod_eq_of_lt (by omega)

/-- The counterexample input for C1: an empty extendable buffer with two
fragment slots (as built by `MmAllocateUninitializedIoBuffer(8192)`). -/
def c1ExtendBuffer : IoBuffer :=
  { flags := { nonPaged := true, extendable := true }
    totalSize := 0
    currentOffset := 0
    fragmentCount := 0
    maxFragmentCount := 2
    pageCount := 2
    fragments := [{}, {}]
    pageCacheEntries := none }

/-- The buffer left behind by the failing extension of `c1ExtendBuffer`:
one page already appended. -/
def c1PartialBuffer : IoBuffer :=
  { flags := { nonPaged := true, extendable := true }
    totalSize := 4096
    currentOffset := 0
    fragmentCount := 1
    maxFragmentCount := 2
    pageCount := 2
    fragments := [{ virtualAddress := 0, physicalAddress := 0x10000,
                    size := 4096 }, {}]
    pageCacheEntries := none }

/-- C1 as frozen is false: a non-contiguous extension by 8192 bytes whose
second page allocation fails returns `STATUS_NO_MEMORY` with `total_size`
already grown by the first page (4096), so a failing extend does not leave
the buffer unchanged. -/
theorem claim_C1_counterexample :
    MmpExtendIoBuffer 12 c1ExtendBuffer 0 (2 ^ 64 - 1) 4096 8192 false
        [0x10000, 0] =
      some (.noMemory, c1PartialBuffer, []) ∧
    c1PartialBuffer.totalSize = 4096 ∧ c1ExtendBuffer.totalSize = 0 := by
  decide

/-- Witness for the amended C1: a successful non-contiguous extension of
`c1ExtendBuffer` by 8192 bytes grows `total_size` by exactly
`ceil(8192/4096) × 4096 = 8192`. -/
theorem claim_C1_extend_total_size_witness :
    ∃ b2 alloc2,
      MmpExtendIoBuffer 12 c1ExtendBuffer 0 (2 ^ 64 - 1) 4096 8192 false
          [0x10000, 0x12000] = some (.success, b2, alloc2) ∧
      b2.totalSize = c1ExtendBuffer.totalSize +
        ((8192 + 2 ^ 12 - 1) / 2 ^ 12) * 2 ^ 12 := by
  refine ⟨{ c1PartialBuffer with
              totalSize := 8192
              fragmentCount := 2
              fragments := [{ virtualAddress := 0,
                              physicalAddress := 0x10000, size := 4096 },
                            { virtualAddress := 0,
                              physicalAddress := 0x12000, size := 4096 }]
              flags := { nonPaged := true, extendable := true,
                         memoryOwned := true } }, [], ?_, ?_⟩
  · decide
  · exact (claim_C1_extend_total_size 12 c1ExtendBuffer 0 (2 ^ 64 - 1) 4096
      8192 false [0x10000, 0x12000] (by decide) (by decide) (by decide)
      (by decide) .success _ [] (by decide)).1 rfl

/-- The fragment-attach step of `MmIoBufferAppendPage` (iobuf.c:2442-2489):
glue the page onto the last fragment when it is physically contiguous and
either both are unmapped or it is also virtually contiguous; otherwise
open the next fragment slot, which is asserted to be zeroed. -/
def appendPageFragment (ps : Nat) (b : IoBuffer) (va pa : Nat) :
    Option IoBuffer :=
  let fragmentIndex := if b.fragmentCount ≠ 0 then b.fragmentCount - 1 else 0
  match b.fragments.get? fragmentIndex with
  | none => none
  | some f =>
    if wadd f.physicalAddress f.size = pa ∧
        ((va = 0 ∧ f.virtualAddress = 0) ∨
         (va ≠ 0 ∧ f.virtualAddress ≠ 0 ∧
          wadd f.virtualAddress f.size = va)) then
      if wadd f.size (2 ^ ps) ≤ f.size then none
      else
        let nf := { f with size := wadd f.size (2 ^ ps) }
        some { b with fragments := b.fragments.set fragmentIndex nf }
    else
      let fragmentIndex2 :=
        if b.fragmentCount ≠ 0 then fragmentIndex + 1 else fragmentIndex
      match b.fragments.get? fragmentIndex2 with
      | none => none
      | some g =>
        if g.physicalAddress = INVALID_PHYSICAL_ADDRESS ∧
            g.virtualAddress = 0 ∧ g.size = 0 then
          let nf : IoBufferFragment :=
            { virtualAddress := va, physicalAddress := pa, size := 2 ^ ps }
          some { b with
            fragments := b.fragments.set fragmentIndex2 nf
            fragmentCount := b.fragmentCount + 1 }
        else none

/-- `MmIoBufferAppendPage` (iobuf.c:2373-2518).  `pageCacheEntry` is the
optional page cache entry (an opaque id); `pcePA` / `pceVA` model the
collaborators `IoGetPageCacheEntryPhysicalAddress` /
`IoGetPageCacheEntryVirtualAddress` (`pceVA e = 0` is a `NULL` cache VA).
Returns the updated buffer and the list of cache entries whose reference
count was acquired (`IoPageCacheEntryAddReference`). -/
def MmIoBufferAppendPage (ps : Nat) (pcePA pceVA : Nat → Nat) (b : IoBuffer)
    (pageCacheEntry : Option Nat) (virtualAddress physicalAddress : Nat) :
    Option (IoBuffer × List Nat) :=
  if b.flags.extendable = false then none
  else if ¬(pageCacheEntry = none ∨
      physicalAddress = INVALID_PHYSICAL_ADDRESS) then none
  else if pageCacheEntry.isSome ∧ b.pageCacheEntries = none then none
  else if ¬(b.fragmentCount < b.maxFragmentCount) then none
  else if isAligned b.totalSize (2 ^ ps) = false then none
  else
    let pa := match pageCacheEntry with
      | some e => pcePA e
      | none => physicalAddress
    let va := match pageCacheEntry with
      | some e => pceVA e
      | none => virtualAddress
    match appendPageFragment ps b va pa with
    | none => none
    | some b1 =>
      match pageCacheEntry with
      | none => some ({ b1 with totalSize := wadd b1.totalSize (2 ^ ps) }, [])
      | some e =>
        if ¬(b1.fragmentCount ≤ b.pageCount) then none
        else
          let pageIndex := b.totalSize >>> ps
          if ¬(pageIndex < b.pageCount) then none
          else
            match b.pageCacheEntries with
            | none => none
            | some t =>
              if t.getD pageIndex none ≠ none then none
              else if b.flags.pageCacheBacked = false then none
              else
                some ({ b1 with
                  pageCacheEntries := some (t.set pageIndex (some e))
                  totalSize := wadd b1.totalSize (2 ^ ps) }, [e])

theorem appendPageFragment_preserves {ps : Nat} {b : IoBuffer} {va pa : Nat}
    {b1 : IoBuffer} (h : appendPageFragment ps b va pa = some b1) :
    b1.totalSize = b.totalSize ∧ b1.flags = b.flags ∧
      b1.pageCacheEntries = b.pageCacheEntries := by
  unfold appendPageFragment at h
  dsimp only at h
  cases hg : b.fragments.get?
      (if b.fragmentCount ≠ 0 then b.fragmentCount - 1 else 0) with
  | none => rw [hg] at h; simp at h
  | some f =>
    simp only [hg] at h
    by_cases h1 : wadd f.physicalAddress f.size = pa ∧
        ((va = 0 ∧ f.virtualAddress = 0) ∨
         (va ≠ 0 ∧ f.virtualAddress ≠ 0 ∧
          wadd f.virtualAddress f.size = va))
    · rw [if_pos h1] at h
      by_cases h2 : wadd f.size (2 ^ ps) ≤ f.size
      · rw [if_pos h2] at h; simp at h
      · rw [if_neg h2] at h
        simp only [Option.some.injEq] at h
        rw [← h]
        exact ⟨rfl, rfl, rfl⟩
    · rw [if_neg h1] at h
      cases hg2 : b.fragments.get?
          (if b.fragmentCount ≠ 0 then
            (if b.fragmentCount ≠ 0 then b.fragmentCount - 1 else 0) + 1
          else (if b.fragmentCount ≠ 0 then b.fragmentCount - 1 else 0)) with
      | none => rw [hg2] at h; simp at h
      | some g =>
        simp only [hg2] at h
        by_cases h3 : g.physicalAddress = INVALID_PHYSICAL_ADDRESS ∧
            g.virtualAddress = 0 ∧ g.size = 0
        · rw [if_pos h3] at h
          simp only [Option.some.injEq] at h
          rw [← h]
          exact ⟨rfl, rfl, rfl⟩
        · rw [if_neg h3] at h; simp at h

/-- C8: when `MmIoBufferAppendPage` completes (its asserts hold),
`total_size` has grown by exactly one page, and when a page cache entry
was supplied: exactly one reference to it was acquired, it is stored at
slot `total_size / page_size` of the page-cache-entry table (a slot shown
empty at the time of the call), and the `PAGE_CACHE_BACKED` flag is set on
the resulting buffer. -/
theorem claim_C8_append_page (ps : Nat) (pcePA pceVA : Nat → Nat)
    (b : IoBuffer) (pce : Option Nat) (va pa : Nat) (b2 : IoBuffer)
    (acq : List Nat)
    (ht : b.totalSize + 2 ^ ps < U)
    (h : MmIoBufferAppendPage ps pcePA pceVA b pce va pa = some (b2, acq)) :
    b2.totalSize = b.totalSize + 2 ^ ps ∧
    (∀ e, pce = some e →
      acq = [e] ∧
      b2.flags.pageCacheBacked = true ∧
      ∃ t, b.pageCacheEntries = some t ∧
        t.getD (b.totalSize / 2 ^ ps) none = none ∧
        b2.pageCacheEntries = some (t.set (b.totalSize / 2 ^ ps) (some e))) := by
  unfold MmIoBufferAppendPage at h
  by_cases g1 : b.flags.extendable = false
  · rw [if_pos g1] at h; exact absurd h (by simp)
  rw [if_neg g1] at h
  by_cases g2 : pce = none ∨ pa = INVALID_PHYSICAL_ADDRESS
  swap
  · rw [if_pos g2] at h
    exact absurd h (by simp)
  rw [if_neg (not_not_intro g2)] at h
  by_cases g3 : pce.isSome ∧ b.pageCacheEntries = none
  · rw [if_pos g3] at h; exact absurd h (by simp)
  rw [if_neg g3] at h
  by_cases g4 : b.fragmentCount < b.maxFragmentCount
  swap
  · rw [if_pos g4] at h
    exact absurd h (by simp)
  rw [if_neg (not_not_intro g4)] at h
  by_cases g5 : isAligned b.totalSize (2 ^ ps) = false
  · rw [if_pos g5] at h; exact absurd h (by simp)
  rw [if_neg g5] at h
  dsimp only at h
  cases pce with
  | none =>
    dsimp only at h
    cases hfrag : appendPageFragment ps b va pa with
    | none => rw [hfrag] at h; exact absurd h (by simp)
    | some b1 =>
      rw [hfrag] at h
      obtain ⟨hts, hfl, hpce⟩ := appendPageFragment_preserves hfrag
      have hwadd : wadd b1.totalSize (2 ^ ps) = b.totalSize + 2 ^ ps := by
        rw [hts]; exact Nat.mod_eq_of_lt ht
      dsimp only at h
      simp only [Option.some.injEq, Prod.mk.injEq] at h
      obtain ⟨hb, _⟩ := h
      refine ⟨?_, fun e he => by cases he⟩
      rw [← hb]
      exact hwadd
  | some e =>
    dsimp only at h
    cases hfrag : appendPageFragment ps b (pceVA e) (pcePA e) with
    | none => rw [hfrag] at h; exact absurd h (by simp)
    | some b1 =>
      rw [hfrag] at h
      obtain ⟨hts, hfl, hpce⟩ := appendPageFragment_preserves hfrag
      have hwadd : wadd b1.totalSize (2 ^ ps) = b.totalSize + 2 ^ ps := by
        rw [hts]; exact Nat.mod_eq_of_lt ht
      dsimp only at h
      by_cases g6 : b1.fragmentCount ≤ b.pageCount
      swap
      · rw [if_pos g6] at h
        exact absurd h (by simp)
      rw [if_neg (not_not_intro g6)] at h
      by_cases g7 : b.totalSize >>> ps < b.pageCount
      swap
      · rw [if_pos g7] at h
        exact absurd h (by simp)
      rw [if_neg (not_not_intro g7)] at h
      cases htab : b.pageCacheEntries with
      | none => rw [htab] at h; exact absurd h (by simp)
      | some t =>
        rw [htab] at h
        dsimp only at h
        by_cases g8 : t.getD (b.totalSize >>> ps) none ≠ none
        · rw [if_pos g8] at h; exact absurd h (by simp)
        rw [if_neg g8] at h
        by_cases g9 : b.flags.pageCacheBacked = false
        · rw [if_pos g9] at h; exact absurd h (by simp)
        rw [if_neg g9] at h
        simp only [Option.some.injEq, Prod.mk.injEq] at h
        obtain ⟨hb, hacq⟩ := h
        have hshift : b.totalSize >>> ps = b.totalSize / 2 ^ ps :=
          Nat.shiftRight_eq_div_pow _ _
        refine ⟨by rw [← hb]; exact hwadd, fun e2 he2 => ?_⟩
        cases he2
        refine ⟨hacq.symm, ?_, t, rfl, ?_, ?_⟩
        · rw [← hb]
          show b1.flags.pageCacheBacked = true
          rw [hfl]
          exact Bool.not_eq_false _ |>.mp g9
        · rw [← hshift]
          simpa using g8
        · rw [← hb, ← hshift]

/-- Sample cache-backed extendable buffer for the C8 witness. -/
def c8Buffer : IoBuffer :=
  { flags := { nonPaged := true, memoryLocked := true,
               pageCacheBacked := true, extendable := true }
    totalSize := 0
    currentOffset := 0
    fragmentCount := 0
    maxFragmentCount := 1
    pageCount := 1
    fragments := [{}]
    pageCacheEntries := some [none] }

/-- The buffer after appending cache entry 7 (physical page 0x30000,
unmapped) to `c8Buffer`. -/
def c8OutBuffer : IoBuffer :=
  { flags := { nonPaged := true, memoryLocked := true,
               pageCacheBacked := true, extendable := true }
    totalSize := 4096
    currentOffset := 0
    fragmentCount := 1
    maxFragmentCount := 1
    pageCount := 1
    fragments := [{ virtualAddress := 0, physicalAddress := 0x30000,
                    size := 4096 }]
    pageCacheEntries := some [some 7] }

/-- Witness for C8: appending page cache entry 7 to `c8Buffer` grows
`total_size` to 4096, acquires one reference to entry 7 and stores it at
slot 0. -/
theorem claim_C8_append_page_witness :
    c8OutBuffer.totalSize = c8Buffer.totalSize + 2 ^ 12 ∧
    (∀ e, (some 7 : Option Nat) = some e →
      ([7] : List Nat) = [e] ∧
      c8OutBuffer.flags.pageCacheBacked = true ∧
      ∃ t, c8Buffer.pageCacheEntries = some t ∧
        t.getD (c8Buffer.totalSize / 2 ^ 12) none = none ∧
        c8OutBuffer.pageCacheEntries =
          some (t.set (c8Buffer.totalSize / 2 ^ 12) (some e))) :=
  claim_C8_append_page 12 (fun _ => 0x30000) (fun _ => 0) c8Buffer
    (some 7) 0 0 c8OutBuffer [7] (by decide) (by decide)

/-- One per-page teardown action issued by the Releaser: free an owned
physical page (`MmFreePhysicalPage`), drop a page-cache-entry reference
(`IoPageCacheEntryReleaseReference`), or unlock a borrowed locked page
(`MmpUnlockPhysicalPages`). -/
inductive PageAction where
  | freePage (pa : Nat)
  | releaseEntry (e : Nat)
  | unlockPage (pa : Nat)
  deriving DecidableEq, Repr

/-- Read the page-cache-entry slot `j`; a `NULL` table yields `NULL`
(the loop variable `PageCacheEntry` keeps its initial `NULL` when the
table pointer is `NULL`). -/
def tableSlot (table : Option (List (Option Nat))) (j : Nat) : Option Nat :=
  match table with
  | none => none
  | some t => t.getD j none

/-- The per-page loop of the owned/cache-backed branch of
`MmpReleaseIoBufferResources` (iobuf.c:2893-2937): for each page read the
next cache-entry slot; a non-null entry is released (its physical address
is asserted to match the page), otherwise an owned page is freed, and a
purely cache-backed buffer with an empty slot trips `ASSERT(FALSE)`. -/
def releaseOwnedPages (ps : Nat) (owned : Bool) (pcePA : Nat → Nat)
    (table : Option (List (Option Nat))) :
    Nat → Nat → Nat → Option (List PageAction × Nat)
  | 0, _, idx => some ([], idx)
  | n + 1, pa, idx =>
    match tableSlot table idx with
    | some e =>
      if pcePA e = pa then
        match releaseOwnedPages ps owned pcePA table n (wadd pa (2 ^ ps))
            (idx + 1) with
        | none => none
        | some (acts, idx2) => some (PageAction.releaseEntry e :: acts, idx2)
      else none
    | none =>
      if owned then
        match releaseOwnedPages ps owned pcePA table n (wadd pa (2 ^ ps))
            (idx + 1) with
        | none => none
        | some (acts, idx2) => some (PageAction.freePage pa :: acts, idx2)
      else none

/-- The fragment loop of the owned/cache-backed branch of
`MmpReleaseIoBufferResources` (iobuf.c:2876-2938): fragment size and
physical address are asserted page aligned, then the fragment is walked
page by page. -/
def releaseOwnedFrags (ps : Nat) (owned : Bool) (pcePA : Nat → Nat)
    (table : Option (List (Option Nat))) :
    List IoBufferFragment → Nat → Option (List PageAction × Nat)
  | [], idx => some ([], idx)
  | f :: rest, idx =>
    if isAligned f.size (2 ^ ps) = false then none
    else if isAligned f.physicalAddress (2 ^ ps) = false then none
    else
      match releaseOwnedPages ps owned pcePA table (f.size >>> ps)
          f.physicalAddress idx with
      | none => none
      | some (acts, idx2) =>
        match releaseOwnedFrags ps owned pcePA table rest idx2 with
        | none => none
        | some (acts2, idx3) => some (acts ++ acts2, idx3)

/-- The per-page loop of the locked branch of
`MmpReleaseIoBufferResources` (iobuf.c:2975-2986): release a referenced
cache entry or unlock the physical page. -/
def releaseLockedPages (ps : Nat) (table : List (Option Nat)) :
    Nat → Nat → Nat → List PageAction × Nat
  | 0, _, idx => ([], idx)
  | n + 1, pa, idx =>
    let act := match table.getD idx none with
      | some e => PageAction.releaseEntry e
      | none => PageAction.unlockPage pa
    let r := releaseLockedPages ps table n (wadd pa (2 ^ ps)) (idx + 1)
    (act :: r.1, r.2)

/-- The fragment loop of the locked branch of
`MmpReleaseIoBufferResources` (iobuf.c:2959-2987): the first fragment's
physical address may be unaligned, so round it down and walk
`ceil((size + page_offset)/page)` pages. -/
def releaseLockedFrags (ps : Nat) (table : List (Option Nat)) :
    List IoBufferFragment → Nat → List PageAction
  | [], _ => []
  | f :: rest, idx =>
    let pageOffset := f.physicalAddress % 2 ^ ps
    let size := alignRangeUp (wadd f.size pageOffset) (2 ^ ps)
    let r := releaseLockedPages ps table (size >>> ps)
      (wsub f.physicalAddress pageOffset) idx
    r.1 ++ releaseLockedFrags ps table rest r.2

/-- The descriptor-visible effect of `MmpUnmapIoBuffer`
(iobuf.c:3159-3406): clear `MAPPED | UNMAP_ON_FREE |
VIRTUALLY_CONTIGUOUS` (lines 3401-3403).  The virtual-range frees it
issues go to the VA allocator and are not tracked here. -/
def MmpUnmapIoBufferEffect (b : IoBuffer) : IoBuffer :=
  { b with flags := { b.flags with mapped := false, unmapOnFree := false, virtuallyContiguous := false } }

/-- `MmpReleaseIoBufferResources` (iobuf.c:2814-2991): snapshot the flags,
zero the cursor, unmap if `UNMAP_ON_FREE`, then dispatch the per-page
teardown on the snapshot: owned or cache-backed buffers walk the fragments
releasing entries or freeing pages; otherwise locked buffers release
entries or unlock pages (this branch asserts a positive page count and a
cache-entry table); otherwise nothing happens per page. -/
def MmpReleaseIoBufferResources (ps : Nat) (pcePA : Nat → Nat)
    (b : IoBuffer) : Option (IoBuffer × List PageAction) :=
  let flags := b.flags
  let b1 := { b with currentOffset := 0 }
  let b2 := if flags.unmapOnFree then MmpUnmapIoBufferEffect b1 else b1
  if flags.memoryOwned || flags.pageCacheBacked then
    match releaseOwnedFrags ps flags.memoryOwned pcePA b.pageCacheEntries
        (b.fragments.take b.fragmentCount) 0 with
    | none => none
    | some (acts, _) => some (b2, acts)
  else if flags.memoryLocked then
    if b.pageCount = 0 then none
    else
      match b.pageCacheEntries with
      | none => none
      | some t =>
        some (b2,
          releaseLockedFrags ps t (b.fragments.take b.fragmentCount) 0)
  else some (b2, [])

/-- `MmFreeIoBuffer` (iobuf.c:1185-1225): release all resources, then
free the descriptor from non-paged or paged pool unless
`STRUCTURE_NOT_OWNED`; the boolean reports whether the descriptor memory
was deallocated. -/
def MmFreeIoBuffer (ps : Nat) (pcePA : Nat → Nat) (b : IoBuffer) :
    Option (List PageAction × Bool) :=
  match MmpReleaseIoBufferResources ps pcePA b with
  | none => none
  | some r => some (r.2, !b.flags.structureNotOwned)

/-- `RtlZeroMemory(IoBuffer->Fragment, FragmentCount * sizeof(...))`
(iobuf.c:1270-1271): zero the first `n` fragment slots. -/
def zeroPrefixFragments (n : Nat) (l : List IoBufferFragment) :
    List IoBufferFragment :=
  List.replicate (min n l.length) ({} : IoBufferFragment) ++ l.drop n

/-- `RtlZeroMemory(IoBuffer->Internal.PageCacheEntries, PageCount *
sizeof(PVOID))` (iobuf.c:1281-1282): zero the first `n` slots. -/
def zeroPrefixSlots (n : Nat) (t : List (Option Nat)) :
    List (Option Nat) :=
  List.replicate (min n t.length) none ++ t.drop n

/-- `MmResetIoBuffer` (iobuf.c:1227-1286): assert not user mode, release
all resources, then zero the active fragment slots, the counters, the
cursor and the cache-entry table, and clear `UNMAP_ON_FREE | MAPPED |
VIRTUALLY_CONTIGUOUS`. -/
def MmResetIoBuffer (ps : Nat) (pcePA : Nat → Nat) (b : IoBuffer) :
    Option (IoBuffer × List PageAction) :=
  if b.flags.userMode then none
  else
    match MmpReleaseIoBufferResources ps pcePA b with
    | none => none
    | some (b1, acts) =>
      some ({ b1 with
        fragments := zeroPrefixFragments b1.fragmentCount b1.fragments
        fragmentCount := 0
        totalSize := 0
        currentOffset := 0
        flags := { b1.flags with unmapOnFree := false, mapped := false, virtuallyContiguous := false }
        pageCacheEntries :=
          b1.pageCacheEntries.map (zeroPrefixSlots b1.pageCount) }, acts)

/-- The physical address of every page of one fragment, in order. -/
def fragmentPagePAs (ps : Nat) (f : IoBufferFragment) : List Nat :=
  (List.range (f.size >>> ps)).map (fun i => f.physicalAddress + i * 2 ^ ps)

/-- The physical address of every page of every active fragment. -/
def pagePAsOfFrags (ps : Nat) : List IoBufferFragment → List Nat
  | [] => []
  | f :: rest => fragmentPagePAs ps f ++ pagePAsOfFrags ps rest

/-- All page physical addresses described by a buffer. -/
def bufferPagePAs (ps : Nat) (b : IoBuffer) : List Nat :=
  pagePAsOfFrags ps (b.fragments.take b.fragmentCount)

/-- Spec-side description of the owned-buffer teardown, following the
spec's decision table: for each page (with its parallel slot index), a
present cache entry is released and the page is not freed; an empty slot
(or a missing table) means the physical page is freed. -/
def ownedPageActions (table : Option (List (Option Nat))) :
    List Nat → Nat → List PageAction
  | [], _ => []
  | pa :: rest, j =>
    (match tableSlot table j with
     | some e => PageAction.releaseEntry e
     | none => PageAction.freePage pa) :: ownedPageActions table rest (j + 1)

theorem releaseOwnedPages_spec (ps : Nat) (pcePA : Nat → Nat)
    (table : Option (List (Option Nat))) (n : Nat) :
    ∀ pa idx,
    pa + n * 2 ^ ps < U →
    (∀ j, j < n → ∀ e, tableSlot table (idx + j) = some e →
      pcePA e = pa + j * 2 ^ ps) →
    releaseOwnedPages ps true pcePA table n pa idx =
      some (ownedPageActions table
        ((List.range n).map (fun i => pa + i * 2 ^ ps)) idx, idx + n) := by
  induction n with
  | zero =>
    intro pa idx hbound hagree
    simp [releaseOwnedPages, ownedPageActions]
  | succ n ih =>
    intro pa idx hbound hagree
    have hp : 0 < 2 ^ ps := Nat.pos_pow_of_pos ps (by norm_num)
    have hexp : pa + (n + 1) * 2 ^ ps = pa + 2 ^ ps + n * 2 ^ ps := by ring
    have hw : wadd pa (2 ^ ps) = pa + 2 ^ ps :=
      Nat.mod_eq_of_lt (by omega)
    have hagree2 : ∀ j, j < n → ∀ e,
        tableSlot table (idx + 1 + j) = some e →
        pcePA e = pa + 2 ^ ps + j * 2 ^ ps := by
      intro j hj e he
      have hidx : idx + (j + 1) = idx + 1 + j := by ring
      have := hagree (j + 1) (by omega) e (by rw [hidx]; exact he)
      rw [this]; ring
    have hrec := ih (pa + 2 ^ ps) (idx + 1) (by omega) hagree2
    have hrange : (List.range (n + 1)).map (fun i => pa + i * 2 ^ ps) =
        pa :: (List.range n).map (fun i => pa + 2 ^ ps + i * 2 ^ ps) := by
      rw [List.range_succ_eq_map, List.map_cons, List.map_map]
      congr 1
      · simp
      · apply List.map_congr_left
        intro i _
        simp only [Function.comp_apply, Nat.succ_eq_add_one]
        ring
    rw [hrange]
    show (match tableSlot table idx with
      | some e =>
        if pcePA e = pa then
          match releaseOwnedPages ps true pcePA table n (wadd pa (2 ^ ps))
              (idx + 1) with
          | none => none
          | some (acts, idx2) =>
            some (PageAction.releaseEntry e :: acts, idx2)
        else none
      | none =>
        if true = true then
          match releaseOwnedPages ps true pcePA table n (wadd pa (2 ^ ps))
              (idx + 1) with
          | none => none
          | some (acts, idx2) => some (PageAction.freePage pa :: acts, idx2)
        else none) = _
    cases hslot : tableSlot table idx with
    | some e =>
      have hpa : pcePA e = pa := by
        have := hagree 0 (by omega) e (by rw [Nat.add_zero]; exact hslot)
        simpa using this
      dsimp only
      rw [if_pos hpa, hw, hrec]
      simp only [Option.some.injEq, Prod.mk.injEq]
      constructor
      · simp [ownedPageActions, hslot]
      · omega
    | none =>
      dsimp only
      rw [hw, hrec]
      simp only [if_true]
      simp only [Option.some.injEq, Prod.mk.injEq]
      constructor
      · simp [ownedPageActions, hslot]
      · omega

theorem ownedPageActions_append (table : Option (List (Option Nat)))
    (l1 l2 : List Nat) (idx : Nat) :
    ownedPageActions table (l1 ++ l2) idx =
      ownedPageActions table l1 idx ++
        ownedPageActions table l2 (idx + l1.length) := by
  induction l1 generalizing idx with
  | nil => simp [ownedPageActions]
  | cons a l ih =>
    simp only [List.cons_append, ownedPageActions, List.length_cons,
      List.append_eq, ih]
    rw [show idx + (l.length + 1) = idx + 1 + l.length from by omega]

theorem fragmentPagePAs_length (ps : Nat) (f : IoBufferFragment) :
    (fragmentPagePAs ps f).length = f.size >>> ps := by
  simp [fragmentPagePAs]

theorem releaseOwnedFrags_spec (ps : Nat) (pcePA : Nat → Nat)
    (table : Option (List (Option Nat))) (frags : List IoBufferFragment) :
    ∀ idx,
    (∀ f ∈ frags, isAligned f.size (2 ^ ps) = true ∧
      isAligned f.physicalAddress (2 ^ ps) = true ∧
      f.physicalAddress + f.size < U) →
    (∀ j, j < (pagePAsOfFrags ps frags).length → ∀ e,
      tableSlot table (idx + j) = some e →
      pcePA e = (pagePAsOfFrags ps frags).getD j 0) →
    releaseOwnedFrags ps true pcePA table frags idx =
      some (ownedPageActions table (pagePAsOfFrags ps frags) idx,
        idx + (pagePAsOfFrags ps frags).length) := by
  induction frags with
  | nil =>
    intro idx _ _
    simp [releaseOwnedFrags, pagePAsOfFrags, ownedPageActions]
  | cons f rest ih =>
    intro idx halign hagree
    obtain ⟨ha1, ha2, ha3⟩ := halign f (by simp)
    have hn : (f.size >>> ps) * 2 ^ ps ≤ f.size := by
      rw [Nat.shiftRight_eq_div_pow]
      exact Nat.div_mul_le_self _ _
    have hheadlen : (fragmentPagePAs ps f).length = f.size >>> ps :=
      fragmentPagePAs_length ps f
    have hgetHead : ∀ j, j < f.size >>> ps →
        (fragmentPagePAs ps f).getD j 0 =
          f.physicalAddress + j * 2 ^ ps := by
      intro j hj
      unfold fragmentPagePAs
      rw [List.getD_eq_getElem _ _ (by simpa using hj)]
      simp
    have hagreeHead : ∀ j, j < f.size >>> ps → ∀ e,
        tableSlot table (idx + j) = some e →
        pcePA e = f.physicalAddress + j * 2 ^ ps := by
      intro j hj e he
      have hjlt : j < (pagePAsOfFrags ps (f :: rest)).length := by
        simp only [pagePAsOfFrags, List.length_append, hheadlen]
        omega
      have := hagree j hjlt e he
      rw [this]
      simp only [pagePAsOfFrags]
      rw [List.getD_append _ _ 0 j (by rw [hheadlen]; exact hj)]
      exact hgetHead j hj
    have hpages := releaseOwnedPages_spec ps pcePA table (f.size >>> ps)
      f.physicalAddress idx (by omega) hagreeHead
    have hagreeRest : ∀ j, j < (pagePAsOfFrags ps rest).length → ∀ e,
        tableSlot table (idx + f.size >>> ps + j) = some e →
        pcePA e = (pagePAsOfFrags ps rest).getD j 0 := by
      intro j hj e he
      have hjlt : f.size >>> ps + j < (pagePAsOfFrags ps (f :: rest)).length := by
        simp only [pagePAsOfFrags, List.length_append, hheadlen]
        omega
      have hidx : idx + (f.size >>> ps + j) = idx + f.size >>> ps + j := by
        ring
      have := hagree (f.size >>> ps + j) hjlt e (by rw [hidx]; exact he)
      rw [this]
      simp only [pagePAsOfFrags]
      rw [List.getD_append_right _ _ 0 _ (by rw [hheadlen]; omega)]
      rw [show f.size >>> ps + j - (fragmentPagePAs ps f).length = j from by
        rw [hheadlen]; omega]
    have hrest := ih (idx + f.size >>> ps) (fun g hg =>
      halign g (List.mem_cons_of_mem f hg)) hagreeRest
    show (if isAligned f.size (2 ^ ps) = false then none
      else if isAligned f.physicalAddress (2 ^ ps) = false then none
      else
        match releaseOwnedPages ps true pcePA table (f.size >>> ps)
            f.physicalAddress idx with
        | none => none
        | some (acts, idx2) =>
          match releaseOwnedFrags ps true pcePA table rest idx2 with
          | none => none
          | some (acts2, idx3) => some (acts ++ acts2, idx3)) = _
    rw [if_neg (by simp [ha1]), if_neg (by simp [ha2]), hpages]
    dsimp only
    rw [hrest]
    dsimp only
    simp only [pagePAsOfFrags, Option.some.injEq, Prod.mk.injEq]
    constructor
    · rw [ownedPageActions_append, hheadlen]
      rfl
    · simp only [List.length_append, hheadlen]
      omega

/-- C2: during free (`MmFreeIoBuffer` via `MmpReleaseIoBufferResources`)
of a buffer whose flags include `MEMORY_OWNED`, the per-page actions are
exactly: for every page of every fragment, release the cache-entry
reference when the parallel slot holds an entry (the physical page is not
freed), and free the physical page when the slot is empty or there is no
page-cache-entry table. -/
theorem claim_C2_free_owned (ps : Nat) (pcePA : Nat → Nat) (b : IoBuffer)
    (howned : b.flags.memoryOwned = true)
    (halign : ∀ f ∈ b.fragments.take b.fragmentCount,
      isAligned f.size (2 ^ ps) = true ∧
      isAligned f.physicalAddress (2 ^ ps) = true ∧
      f.physicalAddress + f.size < U)
    (hagree : ∀ j, j < (bufferPagePAs ps b).length → ∀ e,
      tableSlot b.pageCacheEntries j = some e →
      pcePA e = (bufferPagePAs ps b).getD j 0) :
    ∃ d, MmFreeIoBuffer ps pcePA b =
      some (ownedPageActions b.pageCacheEntries (bufferPagePAs ps b) 0,
        d) := by
  have hfrags := releaseOwnedFrags_spec ps pcePA b.pageCacheEntries
    (b.fragments.take b.fragmentCount) 0 halign
    (by intro j hj e he; exact hagree j hj e (by simpa using he))
  refine ⟨!b.flags.structureNotOwned, ?_⟩
  unfold MmFreeIoBuffer MmpReleaseIoBufferResources
  dsimp only
  rw [if_pos (by rw [howned]; rfl)]
  rw [show releaseOwnedFrags ps b.flags.memoryOwned pcePA b.pageCacheEntries
      (b.fragments.take b.fragmentCount) 0 =
    releaseOwnedFrags ps true pcePA b.pageCacheEntries
      (b.fragments.take b.fragmentCount) 0 from by rw [howned]]
  rw [hfrags]
  rfl

/-- Sample owned buffer for the C2 witness: one fragment of two pages,
the first page borrowed by cache entry 5, the second owned outright. -/
def c2Buffer : IoBuffer :=
  { flags := { memoryOwned := true, memoryLocked := true, nonPaged := true }
    totalSize := 8192
    currentOffset := 0
    fragmentCount := 1
    maxFragmentCount := 1
    pageCount := 2
    fragments := [{ virtualAddress := 0, physicalAddress := 0x10000,
                    size := 8192 }]
    pageCacheEntries := some [some 5, none] }

/-- Witness for C2: freeing `c2Buffer` releases the reference of entry 5
for the first page and frees the second physical page. -/
theorem claim_C2_free_owned_witness :
    ∃ d, MmFreeIoBuffer 12 (fun _ => 0x10000) c2Buffer =
      some (ownedPageActions c2Buffer.pageCacheEntries
        (bufferPagePAs 12 c2Buffer) 0, d) := by
  refine claim_C2_free_owned 12 (fun _ => 0x10000) c2Buffer (by decide)
    (by decide) ?_
  intro j hj e he
  have hj2 : j < 2 := by
    simpa [bufferPagePAs, pagePAsOfFrags, fragmentPagePAs, c2Buffer]
      using hj
  interval_cases j
  · rw [show tableSlot c2Buffer.pageCacheEntries 0 = some 5 from rfl] at he
    injection he with he5
    subst he5
    decide
  · rw [show tableSlot c2Buffer.pageCacheEntries 1 = none from rfl] at he
    exact absurd he (by simp)

theorem release_buffer_shape {ps : Nat} {pcePA : Nat → Nat}
    {b b1 : IoBuffer} {acts : List PageAction}
    (h : MmpReleaseIoBufferResources ps pcePA b = some (b1, acts)) :
    b1 = (if b.flags.unmapOnFree then
      MmpUnmapIoBufferEffect { b with currentOffset := 0 }
    else { b with currentOffset := 0 }) := by
  unfold MmpReleaseIoBufferResources at h
  dsimp only at h
  by_cases h1 : (b.flags.memoryOwned || b.flags.pageCacheBacked) = true
  · rw [if_pos h1] at h
    cases hr : releaseOwnedFrags ps b.flags.memoryOwned pcePA
        b.pageCacheEntries (b.fragments.take b.fragmentCount) 0 with
    | none => rw [hr] at h; simp at h
    | some r =>
      rcases r with ⟨acts1, i1⟩
      rw [hr] at h
      dsimp only at h
      simp only [Option.some.injEq, Prod.mk.injEq] at h
      exact h.1.symm
  · rw [if_neg h1] at h
    by_cases h2 : b.flags.memoryLocked = true
    · rw [if_pos h2] at h
      by_cases h3 : b.pageCount = 0
      · rw [if_pos h3] at h; simp at h
      rw [if_neg h3] at h
      cases htab : b.pageCacheEntries with
      | none => rw [htab] at h; simp at h
      | some t =>
        rw [htab] at h
        dsimp only at h
        simp only [Option.some.injEq, Prod.mk.injEq] at h
        exact h.1.symm
    · rw [if_neg h2] at h
      simp only [Option.some.injEq, Prod.mk.injEq] at h
      exact h.1.symm

/-- C9: `MmResetIoBuffer` clears exactly the `UNMAP_ON_FREE`, `MAPPED`
and `VIRTUALLY_CONTIGUOUS` flags and zeroes `fragment_count`,
`total_size`, `current_offset`, the active fragment slots and the
page-cache-entry table, while every other flag (in particular
`MEMORY_OWNED`, which stays set although the owned pages were just
released) and the capacity fields `max_fragment_count` and `page_count`
are unchanged.  Slots past `fragment_count` in the fragment table and
past `page_count` in the cache-entry table are not written, so the whole
tables end up zero whenever those tails were already zero. -/
theorem claim_C9_reset (ps : Nat) (pcePA : Nat → Nat) (b b2 : IoBuffer)
    (acts : List PageAction)
    (hfc : b.fragmentCount ≤ b.fragments.length)
    (h : MmResetIoBuffer ps pcePA b = some (b2, acts)) :
    b2.flags = { b.flags with unmapOnFree := false, mapped := false, virtuallyContiguous := false } ∧
    b2.fragmentCount = 0 ∧ b2.totalSize = 0 ∧ b2.currentOffset = 0 ∧
    b2.maxFragmentCount = b.maxFragmentCount ∧
    b2.pageCount = b.pageCount ∧
    b2.fragments = List.replicate b.fragmentCount ({} : IoBufferFragment) ++
      b.fragments.drop b.fragmentCount ∧
    b2.pageCacheEntries = b.pageCacheEntries.map (zeroPrefixSlots b.pageCount) ∧
    b2.flags.memoryOwned = b.flags.memoryOwned ∧
    b2.flags.structureNotOwned = b.flags.structureNotOwned ∧
    b2.flags.memoryLocked = b.flags.memoryLocked ∧
    b2.flags.nonPaged = b.flags.nonPaged ∧
    b2.flags.pageCacheBacked = b.flags.pageCacheBacked ∧
    b2.flags.userMode = b.flags.userMode ∧
    b2.flags.extendable = b.flags.extendable := by
  unfold MmResetIoBuffer at h
  by_cases hu : b.flags.userMode = true
  · rw [if_pos hu] at h; exact absurd h (by simp)
  rw [if_neg hu] at h
  cases hr : MmpReleaseIoBufferResources ps pcePA b with
  | none => rw [hr] at h; exact absurd h (by simp)
  | some r =>
    rcases r with ⟨b1, acts1⟩
    rw [hr] at h
    dsimp only at h
    simp only [Option.some.injEq, Prod.mk.injEq] at h
    obtain ⟨hb2, hacts⟩ := h
    have hshape := release_buffer_shape hr
    have hflags1 : b1.flags = (if b.flags.unmapOnFree = true then
        { b.flags with mapped := false, unmapOnFree := false, virtuallyContiguous := false }
      else b.flags) := by
      rw [hshape]
      by_cases hub : b.flags.unmapOnFree = true
      · simp only [hub, if_true, if_pos rfl]
        rfl
      · have hub2 : b.flags.unmapOnFree = false := by
          cases hx : b.flags.unmapOnFree
          · rfl
          · exact absurd hx hub
        simp only [hub2, Bool.false_eq_true, if_false]
    have hrest : b1.fragmentCount = b.fragmentCount ∧
        b1.fragments = b.fragments ∧
        b1.maxFragmentCount = b.maxFragmentCount ∧
        b1.pageCount = b.pageCount ∧
        b1.pageCacheEntries = b.pageCacheEntries := by
      rw [hshape]
      by_cases hub : b.flags.unmapOnFree = true
      · simp [hub, MmpUnmapIoBufferEffect]
      · have hub2 : b.flags.unmapOnFree = false := by
          cases hx : b.flags.unmapOnFree
          · rfl
          · exact absurd hx hub
        simp [hub2]
    obtain ⟨hc1, hc2, hc3, hc4, hc5⟩ := hrest
    have hflagsFinal : ({ b1.flags with unmapOnFree := false, mapped := false, virtuallyContiguous := false } : IoBufferFlags) = { b.flags with unmapOnFree := false, mapped := false, virtuallyContiguous := false } := by
      rw [hflags1]
      by_cases hub : b.flags.unmapOnFree = true
      · rw [if_pos hub]
      · rw [if_neg hub]
    rw [← hb2]
    refine ⟨hflagsFinal, rfl, rfl, rfl, hc3, hc4, ?_, ?_, ?_, ?_, ?_, ?_, ?_,
      ?_, ?_⟩
    · show zeroPrefixFragments b1.fragmentCount b1.fragments = _
      rw [hc1, hc2]
      unfold zeroPrefixFragments
      rw [Nat.min_eq_left hfc]
    · show b1.pageCacheEntries.map (zeroPrefixSlots b1.pageCount) = _
      rw [hc4, hc5]
    · rw [hflagsFinal]
    · rw [hflagsFinal]
    · rw [hflagsFinal]
    · rw [hflagsFinal]
    · rw [hflagsFinal]
    · rw [hflagsFinal]
    · rw [hflagsFinal]

/-- Sample owned buffer for the C9 witness: one owned page, no mapping. -/
def c9Buffer : IoBuffer :=
  { flags := { memoryOwned := true, memoryLocked := true, nonPaged := true,
               extendable := true }
    totalSize := 4096
    currentOffset := 0
    fragmentCount := 1
    maxFragmentCount := 1
    pageCount := 1
    fragments := [{ virtualAddress := 0, physicalAddress := 0x10000,
                    size := 4096 }]
    pageCacheEntries := some [none] }

/-- The buffer `MmResetIoBuffer` leaves behind from `c9Buffer`. -/
def c9OutBuffer : IoBuffer :=
  { flags := { memoryOwned := true, memoryLocked := true, nonPaged := true,
               extendable := true }
    totalSize := 0
    currentOffset := 0
    fragmentCount := 0
    maxFragmentCount := 1
    pageCount := 1
    fragments := [{}]
    pageCacheEntries := some [none] }

/-- Witness for C9: resetting `c9Buffer` frees its owned page, zeroes the
counters and tables, and keeps `MEMORY_OWNED` (and the other sticky
flags) set. -/
theorem claim_C9_reset_witness :
    MmResetIoBuffer 12 (fun _ => 0) c9Buffer =
      some (c9OutBuffer, [PageAction.freePage 0x10000]) ∧
    (c9OutBuffer.flags = { c9Buffer.flags with unmapOnFree := false, mapped := false, virtuallyContiguous := false } ∧
     c9OutBuffer.fragmentCount = 0 ∧ c9OutBuffer.totalSize = 0 ∧
     c9OutBuffer.currentOffset = 0 ∧
     c9OutBuffer.maxFragmentCount = c9Buffer.maxFragmentCount ∧
     c9OutBuffer.pageCount = c9Buffer.pageCount ∧
     c9OutBuffer.fragments =
       List.replicate c9Buffer.fragmentCount ({} : IoBufferFragment) ++
         c9Buffer.fragments.drop c9Buffer.fragmentCount ∧
     c9OutBuffer.pageCacheEntries =
       c9Buffer.pageCacheEntries.map (zeroPrefixSlots c9Buffer.pageCount) ∧
     c9OutBuffer.flags.memoryOwned = c9Buffer.flags.memoryOwned ∧
     c9OutBuffer.flags.structureNotOwned =
       c9Buffer.flags.structureNotOwned ∧
     c9OutBuffer.flags.memoryLocked = c9Buffer.flags.memoryLocked ∧
     c9OutBuffer.flags.nonPaged = c9Buffer.flags.nonPaged ∧
     c9OutBuffer.flags.pageCacheBacked = c9Buffer.flags.pageCacheBacked ∧
     c9OutBuffer.flags.userMode = c9Buffer.flags.userMode ∧
     c9OutBuffer.flags.extendable = c9Buffer.flags.extendable) := by
  constructor
  · decide
  · exact claim_C9_reset 12 (fun _ => 0) c9Buffer c9OutBuffer
      [PageAction.freePage 0x10000] (by decide) (by decide)

/-- The flag state of a freshly allocated non-paged I/O buffer
(iobuf.c:407-412). -/
def allocNonPagedFlags : IoBufferFlags :=
  { nonPaged := true, unmapOnFree := true, memoryOwned := true,
    memoryLocked := true, mapped := true, virtuallyContiguous := true }

/-- The page walk of the non-contiguous path of
`MmAllocateNonPagedIoBuffer` (iobuf.c:370-402): read the physical address
of each mapped page (asserted valid) and coalesce physically contiguous
runs; the accumulator keeps the fragments in reverse order. -/
def allocCoalesceWalk (ps : Nat) (v2p : Nat → Nat) :
    Nat → Nat → List IoBufferFragment → Option (List IoBufferFragment)
  | 0, _, rev => some rev
  | n + 1, va, rev =>
    let pa := v2p va
    if pa = INVALID_PHYSICAL_ADDRESS then none
    else
      match rev with
      | prev :: others =>
        if wadd prev.physicalAddress prev.size = pa then
          allocCoalesceWalk ps v2p n (wadd va (2 ^ ps))
            ({ prev with size := wadd prev.size (2 ^ ps) } :: others)
        else
          allocCoalesceWalk ps v2p n (wadd va (2 ^ ps))
            (⟨va, pa, 2 ^ ps⟩ :: prev :: others)
      | [] =>
        allocCoalesceWalk ps v2p n (wadd va (2 ^ ps)) [⟨va, pa, 2 ^ ps⟩]

/-- The effective physical alignment of `MmAllocateNonPagedIoBuffer`
(iobuf.c:248-253): a zero request becomes the page size, otherwise the
request is rounded up to a page multiple. -/
def allocAlignment (ps alignment : Nat) : Nat :=
  if alignment = 0 then 2 ^ ps else alignRangeUp alignment (2 ^ ps)

/-- `AlignedSize` of `MmAllocateNonPagedIoBuffer` (iobuf.c:255): the
requested size rounded up to the effective alignment. -/
def allocAlignedSize (ps alignment size : Nat) : Nat :=
  alignRangeUp size (allocAlignment ps alignment)

/-- `PageCount` of `MmAllocateNonPagedIoBuffer` (iobuf.c:256). -/
def allocPageCount (ps alignment size : Nat) : Nat :=
  allocAlignedSize ps alignment size >>> ps

/-- `MmAllocateNonPagedIoBuffer` (iobuf.c:171-437).  Collaborators:
`poolOk` answers the non-paged pool, `vaAlloc` the kernel VA allocator
(`MmpAllocateAddressRange`), `mapOk` the mapper (`MmpMapRange`), and
`v2p` the VA→PA translation (`MmpVirtualToPhysical`).  The outer `none`
is a fired assert (including the TODO assert of iobuf.c:263-265
restricting the physical range); the inner `none` is the C `NULL`
return. -/
def MmAllocateNonPagedIoBuffer (ps : Nat) (minPA maxPA alignment size : Nat)
    (contig writeThrough nonCached : Bool) (poolOk : Bool)
    (vaAlloc : Option Nat) (mapOk : Bool) (v2p : Nat → Nat) :
    Option (Option IoBuffer) :=
  if ¬(minPA = 0 ∧ (maxPA = 2 ^ 32 - 1 ∨ maxPA = U - 1)) then none
  else if poolOk = false then some none
  else
    match vaAlloc with
    | none => some none
    | some va =>
      if mapOk = false then some none
      else if contig then
        if v2p va = INVALID_PHYSICAL_ADDRESS then none
        else
          some (some
            { flags := allocNonPagedFlags
              totalSize := allocAlignedSize ps alignment size
              currentOffset := 0
              fragmentCount := 1
              maxFragmentCount := 1
              pageCount := allocPageCount ps alignment size
              fragments := [⟨va, v2p va, allocAlignedSize ps alignment size⟩]
              pageCacheEntries := some (List.replicate (allocPageCount ps alignment size) none) })
      else
        match allocCoalesceWalk ps v2p (allocPageCount ps alignment size) va [] with
        | none => none
        | some rev =>
          if rev.length ≤ allocPageCount ps alignment size then
            some (some
              { flags := allocNonPagedFlags
                totalSize := allocAlignedSize ps alignment size
                currentOffset := 0
                fragmentCount := rev.length
                maxFragmentCount := allocPageCount ps alignment size
                pageCount := allocPageCount ps alignment size
                fragments := rev.reverse ++ List.replicate (allocPageCount ps alignment size - rev.length) ({} : IoBufferFragment)
                pageCacheEntries := some (List.replicate (allocPageCount ps alignment size) none) })
          else none

/-- The fragment walk of `MmValidateIoBuffer` (iobuf.c:2157-2216): check
range, alignment and (optionally) physical contiguity of the described
window.  `some true` means "allocate a replacement buffer", `some false`
means the walk passed; `paEnd` is `PhysicalAddressEnd`
(`none` = `INVALID_PHYSICAL_ADDRESS`). -/
def validateWalkLoop (minPA maxPA alignment : Nat) (contig : Bool)
    (endOffset : Nat) :
    List IoBufferFragment → Nat → Nat → Option Nat → Option Bool
  | [], bufferOffset, _, _ =>
    if bufferOffset < endOffset then none else some false
  | f :: rest, bufferOffset, currentOffset, paEnd =>
    if ¬(bufferOffset < endOffset) then some false
    else
      if bufferOffset ≥ wadd currentOffset f.size then
        validateWalkLoop minPA maxPA alignment contig endOffset rest
          bufferOffset (wadd currentOffset f.size) paEnd
      else
        let fragmentOffset := wsub bufferOffset currentOffset
        let paStart := wadd f.physicalAddress fragmentOffset
        if contig = true ∧ paEnd ≠ none ∧ paEnd ≠ some paStart then some true
        else
          let fragmentSize := wsub f.size fragmentOffset
          if ¬(isAligned paStart alignment = true ∧
              isAligned fragmentSize alignment = true) then some true
          else
            let paEnd2 := wadd paStart fragmentSize
            if ¬(paEnd2 > paStart) then none
            else if paStart < minPA ∨ paEnd2 > maxPA then some true
            else
              let bufferOffset2 := wadd bufferOffset fragmentSize
              let currentOffset2 := wadd currentOffset f.size
              if ¬(bufferOffset2 = currentOffset2) then none
              else
                validateWalkLoop minPA maxPA alignment contig endOffset rest
                  bufferOffset2 currentOffset2 (some paEnd2)

/-- The replacement step of `MmValidateIoBuffer` (iobuf.c:2253-2269):
allocate a fresh non-paged buffer meeting the constraints; on success
`*IoBuffer` is redirected to it, on failure the status becomes
`INSUFFICIENT_RESOURCES` and `*IoBuffer` is untouched. -/
def validateReplace (ps : Nat) (minPA maxPA alignment size : Nat)
    (contig : Bool) (poolOk : Bool) (vaAlloc : Option Nat) (mapOk : Bool)
    (v2p : Nat → Nat) (b : IoBuffer) :
    Option (KSTATUS × Option IoBuffer × Option IoBuffer) :=
  match MmAllocateNonPagedIoBuffer ps minPA maxPA alignment size contig
      false false poolOk vaAlloc mapOk v2p with
  | none => none
  | some none => some (.insufficientResources, some b, none)
  | some (some nb) => some (.success, some b, some nb)

/-- `MmValidateIoBuffer` (iobuf.c:2058-2272).  The result triple is the
status, the state of the caller's original buffer after the call, and the
replacement buffer `*IoBuffer` was redirected to (if any). -/
def MmValidateIoBuffer (ps : Nat) (minPA maxPA alignment size : Nat)
    (contig : Bool) (bOpt : Option IoBuffer) (alloc : List Nat)
    (poolOk : Bool) (vaAlloc : Option Nat) (mapOk : Bool)
    (v2p : Nat → Nat) :
    Option (KSTATUS × Option IoBuffer × Option IoBuffer) :=
  match bOpt with
  | none => some (.invalidParameter, none, none)
  | some b =>
    if b.flags.extendable = false ∧ b.totalSize < wadd b.currentOffset size
    then some (.bufferTooSmall, some b, none)
    else if b.flags.userMode = true then
      validateReplace ps minPA maxPA alignment size contig poolOk vaAlloc
        mapOk v2p b
    else
      let endOffset := min (wadd b.currentOffset size) b.totalSize
      let walkResult :=
        if b.currentOffset ≠ b.totalSize then
          validateWalkLoop minPA maxPA alignment contig endOffset
            (b.fragments.take b.fragmentCount) b.currentOffset 0 none
        else some false
      match walkResult with
      | none => none
      | some true =>
        validateReplace ps minPA maxPA alignment size contig poolOk vaAlloc
          mapOk v2p b
      | some false =>
        if b.flags.extendable = true ∧
            b.totalSize < wadd b.currentOffset size then
          if contig = true ∧ b.currentOffset ≠ b.totalSize then
            validateReplace ps minPA maxPA alignment size contig poolOk
              vaAlloc mapOk v2p b
          else
            match MmpExtendIoBuffer ps b minPA maxPA alignment
                (wsub (wadd b.currentOffset size) b.totalSize) contig
                alloc with
            | none => none
            | some (st, b1, _) => some (st, some b1, none)
        else some (.success, some b, none)

theorem alignRangeUp_ge {x a : Nat} (ha : 0 < a) (hx : x + a ≤ U) :
    x ≤ alignRangeUp x a := by
  rw [alignRangeUp_small ha hx]
  have hd := Nat.div_add_mod (x + a - 1) a
  have hm : (x + a - 1) % a < a := Nat.mod_lt _ ha
  omega

theorem allocNonPaged_shape (ps minPA maxPA alignment size : Nat)
    (contig wt nc poolOk : Bool) (vaAlloc : Option Nat) (mapOk : Bool)
    (v2p : Nat → Nat) (nb : IoBuffer)
    (h : MmAllocateNonPagedIoBuffer ps minPA maxPA alignment size contig
      wt nc poolOk vaAlloc mapOk v2p = some (some nb)) :
    nb.flags = allocNonPagedFlags ∧
    nb.currentOffset = 0 ∧
    nb.totalSize = allocAlignedSize ps alignment size ∧
    (contig = true → nb.fragmentCount = 1) := by
  unfold MmAllocateNonPagedIoBuffer at h
  by_cases hg : minPA = 0 ∧ (maxPA = 2 ^ 32 - 1 ∨ maxPA = U - 1)
  swap
  · rw [if_pos hg] at h
    exact absurd h (by simp)
  rw [if_neg (not_not_intro hg)] at h
  by_cases hpool : poolOk = false
  · rw [if_pos hpool] at h
    exact absurd h (by simp)
  rw [if_neg hpool] at h
  cases vaAlloc with
  | none => exact absurd h (by simp)
  | some va =>
    dsimp only at h
    by_cases hmap : mapOk = false
    · rw [if_pos hmap] at h
      exact absurd h (by simp)
    rw [if_neg hmap] at h
    cases contig with
    | true =>
      rw [if_pos rfl] at h
      by_cases hv : v2p va = INVALID_PHYSICAL_ADDRESS
      · rw [if_pos hv] at h
        exact absurd h (by simp)
      rw [if_neg hv] at h
      simp only [Option.some.injEq] at h
      subst h
      exact ⟨rfl, rfl, rfl, fun _ => rfl⟩
    | false =>
      rw [if_neg (by simp)] at h
      generalize hW : allocCoalesceWalk ps v2p
        (allocPageCount ps alignment size) va [] = w at h
      cases w with
      | none => exact absurd h (by simp)
      | some rev =>
        dsimp only at h
        by_cases hlen : rev.length ≤ allocPageCount ps alignment size
        · rw [if_pos hlen] at h
          simp only [Option.some.injEq] at h
          subst h
          exact ⟨rfl, rfl, rfl, fun hc => nomatch hc⟩
        · rw [if_neg hlen] at h
          exact absurd h (by simp)

/-- The user-mode buffer of the C6 scenario: a mapped user-space buffer of
one page whose described window can hold one page. -/
def c6UserBuffer : IoBuffer :=
  { flags := { userMode := true, mapped := true }
    totalSize := 4096
    currentOffset := 0
    fragmentCount := 1
    maxFragmentCount := 1
    pageCount := 0
    fragments := [⟨0x7f0000, 0, 4096⟩]
    pageCacheEntries := none }

/-- C6 counterexample: validating the user-mode buffer with
`min_pa = 0x100000000` does not return success with a compliant
replacement: the replacement allocator `MmAllocateNonPagedIoBuffer`
(iobuf.c:263-265) asserts that the minimum physical address is `0` (a
TODO: the range constraints are unimplemented there), so the call
asserts instead (modelled as `none`). -/
theorem claim_C6_counterexample :
    MmValidateIoBuffer 12 (2 ^ 32) (U - 1) 0 4096 false (some c6UserBuffer)
      [] true (some (2 ^ 63)) true (fun _ => 0x40000) = none := by
  decide

/-- C6 (amended): for every buffer carrying USER_MODE whose described
window can hold the requested size or which is EXTENDABLE, validate
replaces the buffer: if the non-paged replacement allocation succeeds,
the call returns success with the buffer pointer redirected to the fresh
buffer — flags NON_PAGED | UNMAP_ON_FREE | MEMORY_OWNED | MEMORY_LOCKED |
MAPPED | VIRTUALLY_CONTIGUOUS, total size the request rounded up to the
page-rounded alignment (hence at least the request), a single fragment
when physical contiguity was requested — and the original buffer is
returned unchanged; if the replacement allocation fails the status is
INSUFFICIENT_RESOURCES and the original buffer is untouched.  (The
allocation succeeding requires min = 0 and max ∈ {MAX_ULONG,
MAX_ULONGLONG}: any other physical range trips the TODO assert of
iobuf.c:263-265, as the counterexample shows.) -/
theorem claim_C6_validate_user_replaces
    (ps minPA maxPA alignment size : Nat) (contig : Bool) (b : IoBuffer)
    (alloc : List Nat) (poolOk : Bool) (vaAlloc : Option Nat) (mapOk : Bool)
    (v2p : Nat → Nat)
    (huser : b.flags.userMode = true)
    (hfits : b.flags.extendable = true ∨
      wadd b.currentOffset size ≤ b.totalSize) :
    (MmAllocateNonPagedIoBuffer ps minPA maxPA alignment size contig false
        false poolOk vaAlloc mapOk v2p = some none →
      MmValidateIoBuffer ps minPA maxPA alignment size contig (some b) alloc
        poolOk vaAlloc mapOk v2p =
        some (.insufficientResources, some b, none)) ∧
    (∀ nb, MmAllocateNonPagedIoBuffer ps minPA maxPA alignment size contig
        false false poolOk vaAlloc mapOk v2p = some (some nb) →
      MmValidateIoBuffer ps minPA maxPA alignment size contig (some b) alloc
        poolOk vaAlloc mapOk v2p = some (.success, some b, some nb) ∧
      nb.flags = allocNonPagedFlags ∧
      nb.totalSize = allocAlignedSize ps alignment size ∧
      (allocAlignment ps alignment ≠ 0 →
        size + allocAlignment ps alignment ≤ U → size ≤ nb.totalSize) ∧
      (contig = true → nb.fragmentCount = 1)) := by
  have hnot : ¬(b.flags.extendable = false ∧
      b.totalSize < wadd b.currentOffset size) := by
    rcases hfits with h1 | h1
    · rintro ⟨h2, -⟩
      rw [h1] at h2
      exact absurd h2 (by decide)
    · rintro ⟨-, h3⟩
      exact Nat.not_le.mpr h3 h1
  constructor
  · intro hA
    simp only [MmValidateIoBuffer]
    rw [if_neg hnot, if_pos huser]
    simp only [validateReplace]
    rw [hA]
  · intro nb hA
    obtain ⟨hflags, -, htot, hcontig⟩ := allocNonPaged_shape ps minPA maxPA
      alignment size contig false false poolOk vaAlloc mapOk v2p nb hA
    refine ⟨?_, hflags, htot, ?_, hcontig⟩
    · simp only [MmValidateIoBuffer]
      rw [if_neg hnot, if_pos huser]
      simp only [validateReplace]
      rw [hA]
    · intro hA2 hsz
      rw [htot]
      exact alignRangeUp_ge (Nat.pos_of_ne_zero hA2) hsz

/-- The replacement buffer produced in the C6 witness scenario. -/
def c6NewBuffer : IoBuffer :=
  { flags := allocNonPagedFlags
    totalSize := 4096
    currentOffset := 0
    fragmentCount := 1
    maxFragmentCount := 1
    pageCount := 1
    fragments := [⟨2 ^ 63, 0x40000, 4096⟩]
    pageCacheEntries := some [none] }

theorem claim_C6_validate_user_replaces_witness :
    MmValidateIoBuffer 12 0 (U - 1) 0 4096 true (some c6UserBuffer) [] true
      (some (2 ^ 63)) true (fun _ => 0x40000) =
      some (.success, some c6UserBuffer, some c6NewBuffer) ∧
    c6NewBuffer.flags = allocNonPagedFlags ∧
    4096 ≤ c6NewBuffer.totalSize ∧
    c6NewBuffer.fragmentCount = 1 := by
  have h := (claim_C6_validate_user_replaces 12 0 (U - 1) 0 4096 true
    c6UserBuffer [] true (some (2 ^ 63)) true (fun _ => 0x40000) rfl
    (Or.inr (by decide))).2 c6NewBuffer (by decide)
  obtain ⟨hval, hflags, -, hge, hfrag⟩ := h
  exact ⟨hval, hflags, hge (by decide) (by decide), hfrag rfl⟩

end IoBuf
